import Mathlib

/-!
# Helios core — shallow embedding and verification

This file embeds the core subsystems of the Helios repository in Lean 4 and
proves (or refutes) the spec's claims about them:

* `Helios.Ingest`   — the HTTP ingestion route `create_task_from_email`
  (`core_py/routes/email_tasks.py`).
* `Helios.AllowClient` — the client-side allowlist checker
  (`core_py/allowlist_client.py`).
* `Helios.Contacts` — the contacts / unknown-sender routes
  (`core_py/routes/contacts.py`).
* `Helios.Sched`    — the contextual block scheduler
  (`core_py/scheduler/helios_block_scheduler.py`).
* `Helios.Reflow`   — the reflow controller
  (`core_py/scripts/helios_reflow_noe.py`).

Conventions: machine timestamps (Python `datetime`) are modelled as `Int`
minute counts; database tables are lists of row records; `uuid4()` values are
supplied as explicit parameters.  SQL queries are modelled by list searches in
row order.
-/

namespace Helios

namespace Py

/-!
Structurally recursive models of the Python string operations used by the
sources (`str.lower`, `str.strip`, `str.split(sep)`, `str.endswith`, slicing,
`str.join`).  The standard library versions are avoided because their
iterator-based definitions do not reduce inside the kernel.
-/

/-- Python `s.lower()` (ASCII case mapping). -/
def lower (s : String) : String := ⟨s.data.map Char.toLower⟩

/-- Python `s.strip()`: drop whitespace from both ends. -/
def strip (s : String) : String :=
  ⟨((s.data.dropWhile Char.isWhitespace).reverse.dropWhile
      Char.isWhitespace).reverse⟩

/-- Worker for `splitChar`. -/
def splitCharAux (c : Char) : List Char → List Char → List String
  | [], acc => [⟨acc.reverse⟩]
  | x :: xs, acc =>
    if x = c then ⟨acc.reverse⟩ :: splitCharAux c xs []
    else splitCharAux c xs (x :: acc)

/-- Python `s.split(c)` for a one-character separator
(`"".split(c) = [""]`). -/
def splitChar (c : Char) (s : String) : List String := splitCharAux c s.data []

/-- Python `s.endswith(suffix)`. -/
def endsWith (s suffix : String) : Bool := suffix.data.isSuffixOf s.data

/-- Python `s[:n]`. -/
def take (n : Nat) (s : String) : String := ⟨s.data.take n⟩

/-- Python `sep.join(parts)`. -/
def intercalate (sep : String) : List String → String
  | [] => ""
  | [x] => x
  | x :: xs => x ++ sep ++ intercalate sep xs

end Py

namespace AllowClient

/-- `_normalize_email` of `core_py/allowlist_client.py` (character-identical to
`core_py/utils/contacts_norm.normalize_email`): strip, lowercase; if the
result matches `^\s*([^@]+)@([^@]+)\s*$` (on the stripped string: exactly one
`"@"` with nonempty sides), drop any `+tag` from the local part; otherwise
return the stripped-lowercased string unchanged. -/
def normalizeEmail (addr : String) : String :=
  if addr = "" then ""
  else
    let a := Py.lower (Py.strip addr)
    match Py.splitChar '@' a with
    | [lpart, dom] =>
      if lpart = "" ∨ dom = "" then a
      else ((Py.splitChar '+' lpart).headD lpart) ++ "@" ++ dom
    | _ => a

/-- `_domain_of`: the domain group of the same regex, lowercased and stripped;
`""` when there is no match.  (Call sites only pass already-stripped
addresses, so matching on the trimmed string is exact.) -/
def domainOf (addr : String) : String :=
  let a := Py.strip addr
  match Py.splitChar '@' a with
  | [lpart, dom] =>
    if lpart = "" ∨ dom = "" then "" else Py.strip (Py.lower dom)
  | _ => ""

/-- One entry of the allowlist snapshot's `domains` list. -/
structure SnapshotDomain where
  domain : String
  wildcard : Bool
deriving DecidableEq, Repr

/-- The allowlist snapshot payload (`{emails, domains, ...}`). -/
structure Snapshot where
  emails : List String
  domains : List SnapshotDomain
deriving DecidableEq, Repr

/-- `build_checker(allowlist)` followed by `is_allowed(sender_email)`:
normalized email membership, else exact-domain membership, else wildcard
domains matched by equality or by the `"." + d` suffix test. -/
def isAllowed (al : Snapshot) (sender : String) : Bool :=
  let emails := al.emails.map normalizeEmail
  let exact := ((al.domains.filter (fun d => !d.wildcard)).map
      (fun d => Py.strip (Py.lower d.domain))).filter (fun d => d ≠ "")
  let wild := ((al.domains.filter (fun d => d.wildcard)).map
      (fun d => Py.strip (Py.lower d.domain))).filter (fun d => d ≠ "")
  let e := normalizeEmail sender
  if e = "" then false
  else if emails.contains e then true
  else
    let dom := domainOf e
    exact.contains dom ||
      wild.any (fun wd => dom = wd || Py.endsWith dom ("." ++ wd))

end AllowClient

namespace Contacts

/-- `core_py/utils/contacts_norm.normalize_domain`:
`(domain or "").strip().lower()`. -/
def normalizeDomain (domain : String) : String :=
  Py.lower (Py.strip domain)

/-- Row of the sqlite `clients` table as used by `contacts.py`.
`tags` models the JSON-encoded `tags_json` column as the tag list itself. -/
structure ClientRow where
  id : String
  name : String
  phone : Option String
  notes : Option String
  tags : List String
  active : Bool
  createdAt : String
  updatedAt : String
deriving DecidableEq, Repr

/-- Row of the sqlite `client_emails` table (unique on `(client_id, email)`;
constraint `uq_client_email`). -/
structure ClientEmailRow where
  id : String
  clientId : String
  email : String
  createdAt : String
deriving DecidableEq, Repr

/-- Row of the sqlite `client_domains` table (unique on
`(client_id, domain, wildcard)`; constraint `uq_client_domain_wild`). -/
structure ClientDomainRow where
  id : String
  clientId : String
  domain : String
  wildcard : Bool
  createdAt : String
deriving DecidableEq, Repr

/-- Row of the `unknown_senders` table. -/
structure UnknownSenderRow where
  id : String
  email : String
  domain : String
  messageId : String
  lastMessageId : String
  subject : String
  firstSeen : String
  lastSeen : String
  hits : Int
  status : String
  clientId : Option String
  resolved : Bool
deriving DecidableEq, Repr

/-- The sqlite database slice used by the contacts routes, together with the
`allowlist_meta` singleton (`version`, `updated_at`). -/
structure Db where
  clients : List ClientRow
  clientEmails : List ClientEmailRow
  clientDomains : List ClientDomainRow
  unknownSenders : List UnknownSenderRow
  allowlistVersion : Int
  allowlistUpdatedAt : String
deriving DecidableEq, Repr

/-- `contacts_norm.normalize_email` (same text as
`AllowClient.normalizeEmail`; the repository has two identical copies). -/
def normalizeEmail (addr : String) : String :=
  AllowClient.normalizeEmail addr

/-- `INSERT OR IGNORE INTO client_emails`: no-op when the
`(client_id, email)` unique constraint would be violated. -/
def insertOrIgnoreEmail (db : Db) (rid cid email now : String) : Db :=
  if db.clientEmails.any (fun r => r.clientId = cid ∧ r.email = email) then db
  else { db with clientEmails := db.clientEmails ++ [⟨rid, cid, email, now⟩] }

/-- `INSERT OR IGNORE INTO client_domains`: no-op when the
`(client_id, domain, wildcard)` unique constraint would be violated. -/
def insertOrIgnoreDomain (db : Db) (rid cid domain : String) (wildcard : Bool)
    (now : String) : Db :=
  if db.clientDomains.any
      (fun r => r.clientId = cid ∧ r.domain = domain ∧ r.wildcard = wildcard) then db
  else
    { db with clientDomains := db.clientDomains ++ [⟨rid, cid, domain, wildcard, now⟩] }

/-- `DomainIn` request schema. -/
structure DomainIn where
  domain : String
  wildcard : Bool
deriving DecidableEq, Repr

/-- `ClientCreate` request schema. -/
structure ClientCreate where
  name : String
  phone : Option String
  notes : Option String
  tags : List String
  emails : List String
  domains : List DomainIn
deriving DecidableEq, Repr

/-- `ClientUpdate` request schema. -/
structure ClientUpdate where
  name : Option String
  phone : Option String
  notes : Option String
  tags : Option (List String)
  emails : Option (List String)
  domains : Option (List DomainIn)
  active : Option Bool
deriving DecidableEq, Repr

/-- The email-insertion loop of `create_client` / `update_client`: normalize
each address, skip empty results, `INSERT OR IGNORE`.  `fresh` supplies the
per-row `uuid4()` values. -/
def insertClientEmails (db : Db) (cid now : String) (emails : List String)
    (fresh : Nat → String) : Db :=
  (emails.enum).foldl
    (fun acc p =>
      let em := normalizeEmail p.2
      if em = "" then acc else insertOrIgnoreEmail acc (fresh p.1) cid em now)
    db

/-- The domain-insertion loop of `create_client` / `update_client`
(no emptiness check in the source). -/
def insertClientDomains (db : Db) (cid now : String) (domains : List DomainIn)
    (fresh : Nat → String) : Db :=
  (domains.enum).foldl
    (fun acc p =>
      insertOrIgnoreDomain acc (fresh p.1) cid (normalizeDomain p.2.domain)
        p.2.wildcard now)
    db

/-- `POST /clients` (`create_client`): reject a duplicate (exact, stripped)
name with 409, else insert the client and its email/domain sets.
`allowlist_meta` is not touched. -/
def createClient (db : Db) (body : ClientCreate) (now cid : String)
    (fresh : Nat → String) : Except Nat (Db × String) :=
  if db.clients.any (fun c => c.name = Py.strip body.name) then .error 409
  else
    let db1 := { db with
      clients := db.clients ++
        [{ id := cid, name := Py.strip body.name, phone := body.phone,
           notes := body.notes, tags := body.tags, active := true,
           createdAt := now, updatedAt := now }] }
    let db2 := insertClientEmails db1 cid now body.emails fresh
    let db3 := insertClientDomains db2 cid now body.domains fresh
    .ok (db3, cid)

/-- `PATCH /clients/{cid}` (`update_client`): update scalar fields; when
`emails` (resp. `domains`) is provided, delete the client's previous set and
re-insert the new one.  `allowlist_meta` is not touched. -/
def updateClient (db : Db) (cid : String) (body : ClientUpdate) (now : String)
    (fresh : Nat → String) : Except Nat Db :=
  match db.clients.find? (fun c => c.id = cid) with
  | none => .error 404
  | some cur =>
    let name := match body.name with | some n => Py.strip n | none => cur.name
    let phone := match body.phone with | some p => some p | none => cur.phone
    let notes := match body.notes with | some p => some p | none => cur.notes
    let tags := match body.tags with | some t => t | none => cur.tags
    let active := match body.active with | some a => a | none => cur.active
    let db1 := { db with
      clients := db.clients.map (fun c =>
        if c.id = cid then
          { c with name := name, phone := phone, notes := notes, tags := tags,
                   active := active, updatedAt := now }
        else c) }
    let db2 :=
      match body.emails with
      | none => db1
      | some es =>
        let cleared := { db1 with
          clientEmails := db1.clientEmails.filter (fun r => r.clientId ≠ cid) }
        insertClientEmails cleared cid now es fresh
    let db3 :=
      match body.domains with
      | none => db2
      | some ds =>
        let cleared := { db2 with
          clientDomains := db2.clientDomains.filter (fun r => r.clientId ≠ cid) }
        insertClientDomains cleared cid now ds fresh
    .ok db3

/-- `UnknownCreate` request schema (`subject` defaults to `""`; the route's
`body.subject or ""` is the identity on a plain string field). -/
structure UnknownCreate where
  email : String
  messageId : String
  subject : String
deriving DecidableEq, Repr

/-- The auto-match step of `create_unknown_sender`: client by exact email
join, else by exact domain (the query does not filter on `wildcard`), else by
wildcard domain (`dom LIKE '%.' || d OR dom = d`, i.e. suffix `"." + d` or
equality).  The SQL `LIKE` pattern is modelled as the suffix test, exact for
domains without `LIKE` metacharacters. -/
def autoMatchClient (db : Db) (e : String) : Option String :=
  match db.clientEmails.find? (fun ce =>
      Py.lower ce.email = e ∧ db.clients.any (fun c => c.id = ce.clientId)) with
  | some ce => some ce.clientId
  | none =>
    match Py.splitChar '@' e with
    | [] => none
    | [_] => none
    | parts =>
      let dom := Py.lower (Py.intercalate "@" parts.tail)
      match db.clientDomains.find? (fun cd =>
          Py.lower cd.domain = dom ∧
          db.clients.any (fun c => c.id = cd.clientId)) with
      | some cd => some cd.clientId
      | none =>
        match db.clientDomains.find? (fun cd =>
            cd.wildcard = true ∧
            (Py.endsWith dom ("." ++ Py.lower cd.domain) ∨
              dom = Py.lower cd.domain) ∧
            db.clients.any (fun c => c.id = cd.clientId)) with
        | some cd => some cd.clientId
        | none => none

/-- `POST /unknown-senders` (`create_unknown_sender`): bump `hits`/`last_seen`
for an existing `(email, message_id)` row or insert a fresh pending row; then
auto-match, and on a match set `client_id` and `status='matched'`
(unconditionally, whatever the row's current status).  Returns the row id and
the matched client id. -/
def createUnknownSender (db : Db) (body : UnknownCreate) (now freshId : String) :
    Except Nat (Db × String × Option String) :=
  let e := Py.lower (Py.strip body.email)
  let mid := Py.strip body.messageId
  if e = "" ∨ mid = "" then .error 400
  else
    let step : Db × String :=
      match db.unknownSenders.find? (fun r => r.email = e ∧ r.messageId = mid) with
      | some row =>
        ({ db with unknownSenders := db.unknownSenders.map (fun r =>
            if r.id = row.id then { r with hits := r.hits + 1, lastSeen := now }
            else r) }, row.id)
      | none =>
        ({ db with unknownSenders := db.unknownSenders ++
            [{ id := freshId, email := e, domain := "", messageId := mid,
               lastMessageId := mid, subject := body.subject, firstSeen := now,
               lastSeen := now, hits := 1, status := "pending", clientId := none,
               resolved := false }] }, freshId)
    let db1 := step.1
    let uid := step.2
    let clientId := autoMatchClient db1 e
    let db2 :=
      match clientId with
      | some cid =>
        { db1 with unknownSenders := db1.unknownSenders.map (fun r =>
            if r.id = uid then { r with clientId := some cid, status := "matched" }
            else r) }
      | none => db1
    .ok (db2, uid, clientId)

/-- `UnknownResolve` request schema. -/
structure UnknownResolve where
  action : String
  clientId : Option String
  wildcard : Bool
deriving DecidableEq, Repr

/-- The closing transaction of `resolve_unknown` for approve actions: mark the
row resolved and bump `allowlist_meta.version` (a transaction separate from
the `INSERT OR IGNORE` that precedes it in the source). -/
def finishResolve (db : Db) (uid cid now : String) : Db :=
  { db with
    unknownSenders := db.unknownSenders.map (fun r =>
      if r.id = uid then
        { r with resolved := true, status := "resolved", clientId := some cid }
      else r)
    allowlistVersion := db.allowlistVersion + 1
    allowlistUpdatedAt := now }

/-- `POST /unknown-senders/{uid}/resolve` (`resolve_unknown`). -/
def resolveUnknown (db : Db) (uid : String) (body : UnknownResolve)
    (now freshId : String) : Except Nat Db :=
  match db.unknownSenders.find? (fun r => r.id = uid) with
  | none => .error 404
  | some unk =>
    let email := Py.strip (Py.lower unk.email)
    if body.action = "ignore" then
      .ok { db with unknownSenders := db.unknownSenders.map (fun r =>
        if r.id = uid then { r with resolved := true, status := "ignored" }
        else r) }
    else
      match body.clientId with
      | none => .error 400
      | some cid =>
        if cid = "" then .error 400
        else if body.action = "approve_email" then
          .ok (finishResolve (insertOrIgnoreEmail db freshId cid email now)
            uid cid now)
        else if body.action = "approve_domain" then
          let domain := (Py.splitChar '@' email).getLastD email
          .ok (finishResolve
            (insertOrIgnoreDomain db freshId cid domain body.wildcard now)
            uid cid now)
        else .error 400

end Contacts

namespace Ingest

/-- Row of the `client_emails` table as read by the ingestion route
(`SELECT ... FROM client_emails WHERE lower(email)=:e`). -/
structure ClientEmailRow where
  clientId : String
  email : String
deriving DecidableEq, Repr

/-- Row of the `client_domains` table as read by the ingestion route
(`SELECT ... FROM client_domains WHERE lower(domain)=:d`). -/
structure ClientDomainRow where
  clientId : String
  domain : String
  wildcard : Bool
deriving DecidableEq, Repr

/-- Modelled from the spec: the `EmailTask` ORM row.  The ORM class
`core_py.models.EmailTask` is not present in the source tree (only its
constructor call in the route is); fields follow the spec's data model and the
keyword arguments of that call. -/
structure EmailTaskRow where
  id : String
  clientId : Option String
  sender : String
  subject : String
  snippet : String
  bodyText : String
  createdAt : Int
  gmailLink : Option String
  threadId : Option String
  receivedAt : Int
  sourceLabel : Option String
  priority : String
  clientKeyHint : Option String
deriving DecidableEq, Repr

/-- Modelled from the spec: the `ProcessedEmail` ORM row (the idempotency
ledger, unique on `message_id`).  The ORM class is not in the source tree;
fields follow the spec and the route's constructor calls. -/
structure ProcessedEmailRow where
  messageId : String
  heliosTaskId : Option String
  status : String
  receivedAt : Int
  processedAt : Int
deriving DecidableEq, Repr

/-- `TaskMeta` row as written by the route (`task_id`, `start_at`, `due_at`,
`source`). -/
structure TaskMetaRow where
  taskId : String
  startAt : Option Int
  dueAt : Option Int
  source : String
deriving DecidableEq, Repr

/-- The slice of database state touched by `create_task_from_email`.
`emailsTableDown` / `domainsTableDown` model a `SQLAlchemyError` raised by
queries against the respective table. -/
structure Db where
  clientEmails : List ClientEmailRow
  clientDomains : List ClientDomainRow
  emailTasks : List EmailTaskRow
  taskMeta : List TaskMetaRow
  processedEmails : List ProcessedEmailRow
  unknownSenders : List Contacts.UnknownSenderRow
  emailsTableDown : Bool
  domainsTableDown : Bool
deriving DecidableEq, Repr

/-- `_email_domain`: `None` when the address is empty or has no `"@"`, else the
text after the last `"@"`, lowercased (`addr.rsplit("@", 1)[-1].lower()`). -/
def emailDomain (addr : String) : Option String :=
  if addr = "" then none
  else
    match Py.splitChar '@' addr with
    | [] => none
    | [_] => none
    | parts => some (Py.lower (parts.getLastD ""))

/-- `_is_sender_allowlisted`: exact (lowercased) address in `client_emails`,
else exact (lowercased) domain in `client_domains`; any `SQLAlchemyError`
fails closed (returns `False`).  Note: the `wildcard` column is not consulted
and no subdomain matching is performed. -/
def isSenderAllowlisted (db : Db) (sender : String) : Bool :=
  if db.emailsTableDown then false
  else
    let emailL := Py.lower sender
    if db.clientEmails.any (fun r => Py.lower r.email = emailL) then true
    else
      match emailDomain sender with
      | none => false
      | some domainL =>
        if db.domainsTableDown then false
        else db.clientDomains.any (fun r => Py.lower r.domain = domainL)

/-- `_resolve_client_id`: first `client_id` from an exact email match, else
from an exact domain match; empty/NULL ids are skipped (Python truthiness of
`row[0]`); errors yield `None`. -/
def resolveClientId (db : Db) (sender : String) : Option String :=
  if db.emailsTableDown then none
  else
    let emailL := Py.lower sender
    let fromEmail :=
      match db.clientEmails.find? (fun r => Py.lower r.email = emailL) with
      | some r => if r.clientId = "" then none else some r.clientId
      | none => none
    match fromEmail with
    | some cid => some cid
    | none =>
      match emailDomain sender with
      | none => none
      | some d =>
        if db.domainsTableDown then none
        else
          match db.clientDomains.find? (fun r => Py.lower r.domain = d) with
          | some r => if r.clientId = "" then none else some r.clientId
          | none => none

/-- Request body of `POST /api/tasks/from-email` (`EmailTaskIn`); timestamp
fields already converted from epoch ms (`_ms_to_dt` is the identity on
well-formed inputs, `None` otherwise, which `Option Int` models directly). -/
structure EmailTaskIn where
  messageId : String
  sender : String
  subject : Option String
  content : Option String
  gmailLink : Option String
  threadId : Option String
  receivedTs : Option Int
  startTs : Option Int
  dueTs : Option Int
  sourceLabel : Option String
  priority : Option String
  clientHint : Option String
  dryRun : Bool
deriving DecidableEq, Repr

/-- Response body (`EmailTaskOut`). -/
structure EmailTaskOut where
  heliosTaskId : Option String
  processed : Bool
  reason : Option String
deriving DecidableEq, Repr

/-- Python `x or d` for an optional string (`None` and `""` are falsy). -/
def orElseStr (o : Option String) (d : String) : String :=
  match o with
  | some s => if s = "" then d else s
  | none => d

/-- `create_task_from_email` (`POST /api/tasks/from-email`).
Order of the route: dedupe check, dry-run check, allowlist check, then the
task/meta/processed transaction.  The unique-constraint race branch is not
reachable in this sequential model (the dedupe check already ruled out a
duplicate row). -/
def createTaskFromEmail (db : Db) (p : EmailTaskIn) (now : Int) :
    Db × EmailTaskOut :=
  match db.processedEmails.find? (fun r => r.messageId = p.messageId) with
  | some existing => (db, ⟨existing.heliosTaskId, true, some "duplicate"⟩)
  | none =>
    if p.dryRun then (db, ⟨none, true, some "dry_run"⟩)
    else
      let receivedAt := p.receivedTs.getD now
      let startAt := p.startTs
      let dueAt := p.dueTs
      if ¬ isSenderAllowlisted db p.sender then
        ({ db with
            processedEmails := db.processedEmails ++
              [⟨p.messageId, none, "rejected_allowlist", receivedAt, now⟩] },
         ⟨none, true, some "rejected_allowlist"⟩)
      else
        let clientId := resolveClientId db p.sender
        let task : EmailTaskRow :=
          { id := p.messageId
            clientId := clientId
            sender := p.sender
            subject := Py.take 500 (p.subject.getD "")
            snippet := Py.take 500 (p.content.getD "")
            bodyText := p.content.getD ""
            createdAt := receivedAt
            gmailLink := p.gmailLink
            threadId := p.threadId
            receivedAt := receivedAt
            sourceLabel := p.sourceLabel
            priority := orElseStr p.priority "normal"
            clientKeyHint := p.clientHint }
        let metas : List TaskMetaRow :=
          if startAt.isSome ∨ dueAt.isSome then
            [{ taskId := p.messageId, startAt := startAt, dueAt := dueAt,
               source := "email" }]
          else []
        ({ db with
            emailTasks := db.emailTasks ++ [task]
            taskMeta := db.taskMeta ++ metas
            processedEmails := db.processedEmails ++
              [⟨p.messageId, some p.messageId, "created", receivedAt, now⟩] },
         ⟨some p.messageId, true, some "created"⟩)

end Ingest

namespace Sched

/-!
Embedding of `core_py/scheduler/helios_block_scheduler.py`.

Timestamps are minutes as `Int`: a `datetime` is an absolute minute count, a
`date` is a day number `d` (its datetimes span `[d*1440, (d+1)*1440)`), with
day `0` a Monday so that `weekday d = d % 7` matches Python's
`date.weekday()`.  Python's stable `sorted`/`list.sort` is modelled by a
stable insertion sort (identical output for identical keys).  The unbounded
`while` loops are given explicit fuel; a successful placement always consumes
at least one minute of the cursor, so `cursor.minutes + 1` fuel reproduces
the loop exactly.
-/

/-- `BlockType`. -/
inductive BlockType
  | client_deep_work
  | systems_development
  | marketing_creative
  | admin_processing
  | personal
deriving DecidableEq, Repr

/-- `BlockRule` (durations in minutes, placement labels). -/
structure BlockRule where
  durationMin : Int
  durationMax : Int
  placements : List String
deriving DecidableEq, Repr

/-- `SchedulerConfig`.  `weekly_weights` and `rules` are always fully
populated by the loader, so they are total functions; `cap_blocks_per_day`
may lack keys (`dict.get(bt, 99)`), so it is an association list.  The unused
overflow fields are omitted (`plan_week` never reads them). -/
structure SchedulerConfig where
  coreStart : Int
  coreEnd : Int
  weeklyWeights : BlockType → Int
  rules : BlockType → BlockRule
  minContiguousMinutesForSystems : Int
  capBlocksPerDay : List (BlockType × Int)
  personalWindows : Nat → List (Int × Int)

/-- `Task` (a `remaining_minutes` int, optional due timestamp and priority). -/
structure Task where
  id : String
  title : String
  blockType : BlockType
  remainingMinutes : Int
  due : Option Int
  priority : Option Int
deriving DecidableEq, Repr

/-- `Interval` (`stop` is Python's `end`, a reserved word in Lean). -/
structure Interval where
  start : Int
  stop : Int
deriving DecidableEq, Repr

/-- `Interval.minutes`. -/
def Interval.minutes (i : Interval) : Int := i.stop - i.start

/-- `Interval.split`. -/
def Interval.split (i : Interval) (minutes : Int) :
    Interval × Option Interval :=
  let take := min i.minutes minutes
  let first : Interval := ⟨i.start, i.start + take⟩
  if i.stop > first.stop then (first, some ⟨first.stop, i.stop⟩) else (first, none)

/-- Stable insertion used to model Python's stable sort: `x` goes before the
first element not strictly below it. -/
def insertStable {α : Type} (lt : α → α → Bool) (x : α) : List α → List α
  | [] => [x]
  | y :: ys => if lt y x then y :: insertStable lt x ys else x :: y :: ys

/-- Stable sort by a strict comparison (models Python `sorted`). -/
def sortStable {α : Type} (lt : α → α → Bool) : List α → List α
  | [] => []
  | x :: xs => insertStable lt x (sortStable lt xs)

/-- Strict order on intervals by `start` (the `key=lambda x: x.start` sorts). -/
def intervalLT (a b : Interval) : Bool := a.start < b.start

/-- Python key `(t.priority or 99, t.due or datetime.max)` — note `or`
treats priority 0 as falsy, giving it key 99. -/
def taskPriorityKey (t : Task) : Int :=
  match t.priority with
  | some p => if p = 0 then 99 else p
  | none => 99

/-- Strict comparison of optional due dates with `None` as `datetime.max`. -/
def dueLT : Option Int → Option Int → Bool
  | _, none => false
  | none, some _ => false
  | some x, some y => x < y

/-- Strict lexicographic task order for the `(priority, due)` sorts. -/
def taskLT (a b : Task) : Bool :=
  taskPriorityKey a < taskPriorityKey b ∨
    (taskPriorityKey a = taskPriorityKey b ∧ dueLT a.due b.due)

/-- `subtract_busy`. -/
def subtractBusy (free : Interval) (busies : List Interval) : List Interval :=
  (sortStable intervalLT busies).foldl
    (fun pieces b =>
      (pieces.foldr
        (fun p acc =>
          if b.stop ≤ p.start ∨ b.start ≥ p.stop then p :: acc
          else
            (if b.start > p.start then
              [({ start := p.start, stop := b.start } : Interval)] else []) ++
            (if b.stop < p.stop then
              [({ start := b.stop, stop := p.stop } : Interval)] else []) ++ acc)
        []).filter (fun x => x.stop > x.start))
    [free]

/-- Python `date.weekday()` of a day number (day 0 is a Monday). -/
def weekday (day : Int) : Nat := (day.emod 7).toNat

/-- `t.time()` of an absolute minute stamp, as minutes after midnight. -/
def timeOfDay (m : Int) : Int := m.emod 1440

/-- `bucket_for_time` (10:30 = 630, 11:00 = 660, 14:30 = 870, 16:30 = 990). -/
def bucketForTime (t : Int) : String :=
  if t < 660 then (if t < 630 then "morning" else "mid_morning")
  else if t < 870 then "early_afternoon"
  else if t < 990 then "afternoon"
  else "late_afternoon"

/-- `in_personal_window`. -/
def inPersonalWindow (cfg : SchedulerConfig) (day : Int) (iv : Interval) :
    Bool :=
  let spans := cfg.personalWindows (weekday day)
  if spans = [] then true
  else
    let st := timeOfDay iv.start
    let en := timeOfDay iv.stop
    spans.any (fun se => st ≥ se.1 ∧ en ≤ se.2)

/-- `Demand`. -/
structure Demand where
  minutesByBlock : BlockType → Int
  tasksByBlock : BlockType → List Task

/-- `compute_demand`. -/
def computeDemand (grouped : BlockType → List Task) : Demand :=
  ⟨fun bt => (((grouped bt).map (fun t => max 0 t.remainingMinutes)).foldl
      (· + ·) 0),
   grouped⟩

/-- Pointwise update of a `BlockType`-indexed map. -/
def updateB {α : Type} (f : BlockType → α) (bt : BlockType) (v : α) :
    BlockType → α :=
  fun b => if b = bt then v else f b

/-- The mutable planning state of `plan_week`: the shared task demand, the
window-wide `scheduled_counts`, and the per-day `cap_today`. -/
structure St where
  demand : Demand
  scheduledCounts : BlockType → Nat
  capToday : BlockType → Nat

/-- `Event` (`stop` is Python's `end`). -/
structure Event where
  start : Int
  stop : Int
  summary : String
  description : String
  blockType : BlockType
  taskIds : List String
  taskTitles : List String
deriving DecidableEq, Repr

/-- The `"[BLOCK] ..."` labels of `summary_for`. -/
def blockLabel : BlockType → String
  | .client_deep_work => "[BLOCK] Client Deep Work"
  | .systems_development => "[BLOCK] Systems Development"
  | .marketing_creative => "[BLOCK] Marketing Creative"
  | .admin_processing => "[BLOCK] Admin Processing"
  | .personal => "[BLOCK] Personal"

/-- The str() value of the enum member used in `description_for`. -/
def blockValue : BlockType → String
  | .client_deep_work => "client_deep_work"
  | .systems_development => "systems_development"
  | .marketing_creative => "marketing_creative"
  | .admin_processing => "admin_processing"
  | .personal => "personal"

/-- `summary_for` (Python `//` and `%` are `fdiv`/`fmod`). -/
def summaryFor (bt : BlockType) (iv : Interval) (taskTitles : List String) :
    String :=
  let mins := iv.minutes
  let hours := Int.fdiv mins 60
  let rem := Int.fmod mins 60
  let dur := toString hours ++ "h" ++
    (if rem ≠ 0 then " " ++ toString rem ++ "m" else "")
  match taskTitles with
  | [] => blockLabel bt ++ " (" ++ dur ++ ")"
  | [t] => blockLabel bt ++ ": " ++ t ++ " (" ++ dur ++ ")"
  | t :: rest =>
    blockLabel bt ++ ": " ++ t ++ " +" ++ toString rest.length ++
      " more (" ++ dur ++ ")"

/-- `description_for`. -/
def descriptionFor (bt : BlockType) (taskIds taskTitles : List String) :
    String :=
  let base := "Auto-generated contextual block.\nBlock Type: " ++
    blockValue bt
  if taskTitles ≠ [] then
    base ++ "\nTasks:\n" ++ Py.intercalate "\n"
      ((taskIds.zip taskTitles).map
        (fun p => "- " ++ p.2 ++ "  [id:" ++ p.1 ++ "]"))
  else
    base ++ "\nTasks: " ++ Py.intercalate ", " (taskIds.take 10) ++
      (if taskIds.length > 10 then "..." else "")

/-- The task-draining loop of `allocate`: walk the sorted tasks, assigning
`min(remaining, task.remaining)` minutes to each and decrementing both;
record each distinct task id once. -/
def drainTasks : List Task → Int → List String → List String → List String →
    List Task × List String × List String
  | [], _, _, ids, titles => ([], ids, titles)
  | t :: rest, remaining, seen, ids, titles =>
    if remaining ≤ 0 then (t :: rest, ids, titles)
    else if t.remainingMinutes ≤ 0 then
      let out := drainTasks rest remaining seen ids titles
      (t :: out.1, out.2)
    else
      let use := min remaining t.remainingMinutes
      let t2 := { t with remainingMinutes := t.remainingMinutes - use }
      if seen.contains t.id then
        let out := drainTasks rest (remaining - use) seen ids titles
        (t2 :: out.1, out.2)
      else
        let out := drainTasks rest (remaining - use) (t.id :: seen)
          (ids ++ [t.id]) (titles ++ [t.title])
        (t2 :: out.1, out.2)

/-- `allocate`: sort the bucket's tasks by `(priority, due)`, split the
interval, drain the tasks, and on success emit the event and bump the
counters.  (Python mutates the shared `Task` objects in place; storing the
drained sorted list is observationally identical, because every access to the
list re-sorts it stably by a key the draining does not change.) -/
def allocate (st : St) (bt : BlockType) (iv : Interval) (minutes : Int) :
    St × Option Event × Option Interval :=
  let tasks := sortStable taskLT (st.demand.tasksByBlock bt)
  if tasks = [] then (st, none, some iv)
  else
    let sp := iv.split minutes
    let takeIv := sp.1
    let restIv := sp.2
    let out := drainTasks tasks takeIv.minutes [] [] []
    let st1 : St := { st with demand :=
      { st.demand with tasksByBlock := updateB st.demand.tasksByBlock bt out.1 } }
    if out.2.1 = [] then (st1, none, some iv)
    else
      let ev : Event :=
        { start := takeIv.start
          stop := takeIv.stop
          summary := summaryFor bt takeIv out.2.2
          description := descriptionFor bt out.2.1 out.2.2
          blockType := bt
          taskIds := out.2.1
          taskTitles := out.2.2 }
      let newMinutes := updateB st1.demand.minutesByBlock bt
        (max 0 (st1.demand.minutesByBlock bt - takeIv.minutes))
      let st2 : St := { st1 with
        capToday := updateB st1.capToday bt (st1.capToday bt + 1),
        scheduledCounts :=
          updateB st1.scheduledCounts bt (st1.scheduledCounts bt + 1),
        demand := { st1.demand with minutesByBlock := newMinutes } }
      (st2, some ev, restIv)

/-- `can_place`. -/
def canPlace (cfg : SchedulerConfig) (st : St) (day : Int) (bt : BlockType)
    (interval : Interval) (minutes : Int) : Bool :=
  let cap := (cfg.capBlocksPerDay.lookup bt).getD 99
  if (st.capToday bt : Int) ≥ cap then false
  else if bt = .systems_development ∧
      minutes < cfg.minContiguousMinutesForSystems then false
  else
    let bucket := bucketForTime (timeOfDay interval.start)
    let rule := cfg.rules bt
    if bt = .personal then
      rule.placements.contains "personal_window" &&
        inPersonalWindow cfg day interval
    else
      rule.placements.contains bucket || rule.placements.contains "gaps"

/-- `prefer_list_for_bucket`. -/
def preferListForBucket (bucket : String) : List BlockType :=
  if bucket = "morning" ∨ bucket = "mid_morning" then
    [.client_deep_work, .systems_development, .admin_processing]
  else if bucket = "early_afternoon" ∨ bucket = "afternoon" then
    [.marketing_creative, .client_deep_work, .admin_processing]
  else [.admin_processing, .client_deep_work]

/-- The `for bt in prefs` loop of the work placement: skip buckets at their
scaled weekly target, with too-short candidates, with no demand, or failing
`can_place`; otherwise allocate (an allocation that picked no tasks falls
through to the next preference, keeping its state update). -/
def tryPrefs (cfg : SchedulerConfig) (sw : BlockType → Int) (day : Int)
    (cursor : Interval) :
    List BlockType → St → St × Option (Event × Option Interval)
  | [], st => (st, none)
  | bt :: rest, st =>
    if (st.scheduledCounts bt : Int) ≥ sw bt then
      tryPrefs cfg sw day cursor rest st
    else
      let rule := cfg.rules bt
      let candidate := min
        (max (min rule.durationMax cursor.minutes) rule.durationMin)
        cursor.minutes
      if candidate < rule.durationMin then tryPrefs cfg sw day cursor rest st
      else if st.demand.minutesByBlock bt ≤ 0 then
        tryPrefs cfg sw day cursor rest st
      else if ¬ canPlace cfg st day bt cursor candidate then
        tryPrefs cfg sw day cursor rest st
      else
        match allocate st bt cursor candidate with
        | (st2, some ev, rest2) => (st2, some (ev, rest2))
        | (st2, none, _) => tryPrefs cfg sw day cursor rest st2

/-- The per-interval work-placement `while` loop, with fuel. -/
def workLoop (cfg : SchedulerConfig) (sw : BlockType → Int) (day : Int) :
    Nat → St → Option Interval → St × List Event
  | _, st, none => (st, [])
  | 0, st, some _ => (st, [])
  | fuel + 1, st, some cursor =>
    if cursor.minutes < 30 then (st, [])
    else
      match tryPrefs cfg sw day cursor
          (preferListForBucket (bucketForTime (timeOfDay cursor.start))) st with
      | (st2, some (ev, rest2)) =>
        let out := workLoop cfg sw day fuel st2 rest2
        (out.1, ev :: out.2)
      | (st2, none) =>
        if cursor.minutes ≥ 30 ∧
            st2.demand.minutesByBlock .admin_processing > 0 then
          let rule := cfg.rules .admin_processing
          let mins := min (min rule.durationMax
            (max rule.durationMin cursor.minutes)) cursor.minutes
          if canPlace cfg st2 day .admin_processing cursor mins then
            match allocate st2 .admin_processing cursor mins with
            | (st3, some ev, rest3) =>
              let out := workLoop cfg sw day fuel st3 rest3
              (out.1, ev :: out.2)
            | (st3, none, _) => (st3, [])
          else (st2, [])
        else (st2, [])

/-- The PERSONAL placement `while` loop, with fuel. -/
def personalLoop (cfg : SchedulerConfig) (sw : BlockType → Int) (day : Int) :
    Nat → St → Option Interval → St × List Event
  | _, st, none => (st, [])
  | 0, st, some _ => (st, [])
  | fuel + 1, st, some cursor =>
    if cursor.minutes < (cfg.rules .personal).durationMin then (st, [])
    else if (st.scheduledCounts .personal : Int) ≥ sw .personal then (st, [])
    else
      let rule := cfg.rules .personal
      let mins := min (min rule.durationMax
        (max rule.durationMin cursor.minutes)) cursor.minutes
      if st.demand.minutesByBlock .personal ≤ 0 then (st, [])
      else if ¬ canPlace cfg st day .personal cursor mins then (st, [])
      else
        match allocate st .personal cursor mins with
        | (st2, none, _) => (st2, [])
        | (st2, some ev, rest2) =>
          let out := personalLoop cfg sw day fuel st2 rest2
          (out.1, ev :: out.2)

/-- `PlanDay` (`counts` is the day's final `cap_today`). -/
structure PlanDay where
  date : Int
  blocks : List Event
  counts : BlockType → Nat

/-- `Plan`. -/
structure Plan where
  days : List PlanDay

/-- `scaled = int(math.ceil(weekly * max(1.0, N/7.0)))`, computed exactly
over the rationals: `ceil(w * max(N,7) / 7)`. -/
def scaledWeeklyOf (cfg : SchedulerConfig) (numDays : Nat) :
    BlockType → Int :=
  fun bt => Int.fdiv (cfg.weeklyWeights bt * max (numDays : Int) 7 + 6) 7

/-- The shared shape of the two per-day placement folds: run a loop on each
free interval in order, threading the state and concatenating the emitted
events. -/
def foldEvents (step : St → Interval → St × List Event)
    (l : List Interval) (st : St) : St × List Event :=
  l.foldl (fun (acc : St × List Event) iv =>
    ((step acc.1 iv).1, acc.2 ++ (step acc.1 iv).2)) (st, [])

/-- One day of `plan_week`: fetch fixed events, carve `work_free` from core
hours on weekdays, run the work loop per free interval, then the PERSONAL
loop over the day's personal windows minus the busy intervals. -/
def planOneDay (cfg : SchedulerConfig) (sw : BlockType → Int)
    (fetch : Int → List Interval) (day : Int) (st : St) : PlanDay × St :=
  let fixed := fetch day
  let workFree : List Interval :=
    if weekday day < 5 then
      sortStable intervalLT
        (subtractBusy ⟨day * 1440 + cfg.coreStart, day * 1440 + cfg.coreEnd⟩
          fixed)
    else []
  let st0 : St := { st with capToday := fun _ => 0 }
  let stepW := foldEvents
    (fun a iv => workLoop cfg sw day (iv.minutes.toNat + 1) a (some iv))
    workFree st0
  let pSpans := cfg.personalWindows (weekday day)
  let stepP :=
    if pSpans ≠ [] ∧ stepW.1.demand.minutesByBlock .personal > 0 then
      let personalFree := sortStable intervalLT
        (pSpans.foldl
          (fun acc se =>
            acc ++ subtractBusy ⟨day * 1440 + se.1, day * 1440 + se.2⟩ fixed)
          [])
      foldEvents
        (fun a iv => personalLoop cfg sw day (iv.minutes.toNat + 1) a
          (some iv))
        personalFree stepW.1
    else (stepW.1, [])
  (⟨day, stepW.2 ++ stepP.2, stepP.1.capToday⟩, stepP.1)

/-- The day loop of `plan_week`. -/
def planDays (cfg : SchedulerConfig) (sw : BlockType → Int)
    (fetch : Int → List Interval) : Nat → Int → St → List PlanDay × St
  | 0, _, st => ([], st)
  | n + 1, day, st =>
    let out := planOneDay cfg sw fetch day st
    let rest := planDays cfg sw fetch n (day + 1) out.2
    (out.1 :: rest.1, rest.2)

/-- `plan_week`. -/
def planWeek (startDate : Int) (numDays : Nat) (cfg : SchedulerConfig)
    (fetch : Int → List Interval) (grouped : BlockType → List Task) : Plan :=
  ⟨(planDays cfg (scaledWeeklyOf cfg numDays) fetch numDays startDate
      ⟨computeDemand grouped, fun _ => 0, fun _ => 0⟩).1⟩

/-- Number of events with a given bucket in a list. -/
def countEvs (bt : BlockType) (evs : List Event) : Nat :=
  (evs.filter (fun e => e.blockType = bt)).length

/-- Number of emitted blocks with a given bucket across the window. -/
def Plan.countBucket (p : Plan) (bt : BlockType) : Nat :=
  (p.days.map (fun d => countEvs bt d.blocks)).sum

/-- The invariant behind the weekly-target bound: every bucket that is not
the gap-filler `admin_processing` has its window-wide count below the scaled
weekly target (clamped at zero for degenerate negative weights). -/
def countsBounded (sw : BlockType → Int) (st : St) : Prop :=
  ∀ b : BlockType, b ≠ BlockType.admin_processing →
    (st.scheduledCounts b : Int) ≤ max (sw b) 0

/-- Containment of intervals (`q` lies inside `p`). -/
def subIv (q p : Interval) : Prop := p.start ≤ q.start ∧ q.stop ≤ p.stop

/-- Disjointness of half-open intervals. -/
def disjIv (p b : Interval) : Prop := p.stop ≤ b.start ∨ b.stop ≤ p.start

/-- The time span of an emitted event, as an interval. -/
def evIv (e : Event) : Interval := ⟨e.start, e.stop⟩

end Sched

/-! ### `scripts/helios_reflow_noe.py` — reflow the current suggestion block -/

namespace Reflow

/-- A grouped ClickUp task dict as used by `_pick_next_tasks` (fields
`id`, `name`, `priority`, `due_date`, `remaining_minutes`). -/
structure RfTask where
  id : String
  name : String
  priority : Option Int
  due_date : Option Int
  remaining_minutes : Option Int
deriving DecidableEq, Repr

/-- `(d.get("priority") or 99)` — `or` treats priority 0 as falsy. -/
def prioOr99 (t : RfTask) : Int :=
  match t.priority with
  | some p => if p = 0 then 99 else p
  | none => 99

/-- `_due_val`: `int(d.get("due_date") or 0)`. -/
def dueVal (t : RfTask) : Int :=
  match t.due_date with
  | some d => d
  | none => 0

/-- Strict comparison under the sort key `((priority or 99), _due_val)`. -/
def taskKeyLT (a b : RfTask) : Bool :=
  prioOr99 a < prioOr99 b ∨ (prioOr99 a = prioOr99 b ∧ dueVal a < dueVal b)

/-- `str(t.get("name") or "(Untitled)")`. -/
def nameOr (t : RfTask) : String :=
  if t.name = "" then "(Untitled)" else t.name

/-- The `for t in candidates` loop of `_pick_next_tasks`: skip excluded or
empty ids and tasks without positive remaining minutes, cap each task's
contribution by `per_task_cap` when positive, and stop once the needed
minutes are covered. -/
def pickLoop (exclude : List String) (cap : Int) :
    List RfTask → Int → List String × List String
  | [], _ => ([], [])
  | t :: rest, remaining =>
    if t.id = "" ∨ exclude.contains t.id then pickLoop exclude cap rest remaining
    else
      match t.remaining_minutes with
      | none => pickLoop exclude cap rest remaining
      | some rem =>
        if rem ≤ 0 then pickLoop exclude cap rest remaining
        else
          let take2 := if cap > 0 then min (min rem remaining) cap
            else min rem remaining
          if take2 ≤ 0 then pickLoop exclude cap rest remaining
          else if remaining - take2 ≤ 0 then ([t.id], [nameOr t])
          else
            let out := pickLoop exclude cap rest (remaining - take2)
            (t.id :: out.1, nameOr t :: out.2)

/-- `_pick_next_tasks`: stable-sort the bucket's candidates by
`((priority or 99), _due_val)` and drain them. -/
def pickNextTasks (grouped : String → List RfTask) (bucket_key : String)
    (minutes_needed : Int) (exclude_ids : List String) (per_task_cap : Int) :
    List String × List String :=
  pickLoop exclude_ids per_task_cap
    (Sched.sortStable taskKeyLT (grouped bucket_key)) (max 0 minutes_needed)

/-- The `LABELS` table with its `.get(bucket_key, bucket_key)` fallback. -/
def labelOf (bucket_key : String) : String :=
  if bucket_key = "client_deep_work" then "Client Deep Work"
  else if bucket_key = "systems_development" then "Systems Development"
  else if bucket_key = "marketing_creative" then "Marketing Creative"
  else if bucket_key = "admin_processing" then "Admin Processing"
  else if bucket_key = "personal" then "Personal"
  else bucket_key

/-- The `divmod`-based duration string of `_summary` (already stripped). -/
def durStr (minutes : Int) : String :=
  let mm := max 0 minutes
  let h := mm.fdiv 60
  let m := mm.fmod 60
  Py.strip ((if h ≠ 0 then toString h ++ "h " else "") ++
    (if m ≠ 0 then toString m ++ "m" else ""))

/-- `_summary`. -/
def summaryStr (bucket_key : String) (titles : List String) (minutes : Int) :
    String :=
  let label := labelOf bucket_key
  let dur := durStr minutes
  match titles with
  | [] => "[BLOCK] " ++ label ++ " (pull-forward) (" ++ dur ++ ")"
  | [t1] => "[BLOCK] " ++ label ++ ": " ++ t1 ++ " (" ++ dur ++ ")"
  | [t1, t2] =>
    "[BLOCK] " ++ label ++ ": " ++ t1 ++ "; " ++ t2 ++ " (" ++ dur ++ ")"
  | t1 :: t2 :: more =>
    "[BLOCK] " ++ label ++ ": " ++ t1 ++ "; " ++ t2 ++ " +" ++
      toString more.length ++ " more (" ++ dur ++ ")"

/-- `_description`. -/
def descriptionStr (bucket_key : String) (task_ids titles : List String) :
    String :=
  let pairs := List.zipWith (fun tid ttl => tid ++ " :: " ++ ttl)
    task_ids titles
  "Auto-reflowed block (finished early).\n" ++ "Bucket: " ++ bucket_key ++
    "\n" ++ "Pulled forward:\n  - " ++ Py.intercalate "\n  - " pairs

/-- The already-found current Helios event, with its private extended
properties flattened (`helios_block_type`, `helios_task_ids`). -/
structure RfEvent where
  id : String
  summary : String
  start : Int
  stop : Int
  helios_generated : Bool
  block_type : String
  task_ids_str : String
deriving DecidableEq, Repr

/-- The body of the inserted replacement event. -/
structure RfBody where
  summary : String
  description : String
  start : Int
  stop : Int
  block_type : String
  task_ids_str : String
  idem : String
deriving DecidableEq, Repr

/-- What `main` does after finding the current event: either nothing, or
patch the event's end to `now` and insert one new event body. -/
inductive RfAction where
  | noop : RfAction
  | patchAndInsert : String → Int → RfBody → RfAction
deriving DecidableEq, Repr

/-- The decision logic of `main` after the current event is found: bail out
below `min_chunk`, on a missing block type, on an empty pick, or on
`--dry-run`; otherwise shorten the event to `now` and insert the
replacement block spanning `[now, end]`. -/
def reflowStep (grouped : String → List RfTask) (min_chunk per_task_cap : Int)
    (dry_run : Bool) (now : Int) (now_iso : String) (e : RfEvent) : RfAction :=
  let left_mins := e.stop - now
  if left_mins < min_chunk then .noop
  else
    let bucket_key := Py.strip e.block_type
    let already_ids := (Py.splitChar ',' e.task_ids_str).filter
      (fun x => ¬ x = "")
    if bucket_key = "" then .noop
    else
      let picked := pickNextTasks grouped bucket_key left_mins already_ids
        (max 0 per_task_cap)
      if picked.1 = [] then .noop
      else if dry_run then .noop
      else
        .patchAndInsert e.id now
          ⟨summaryStr bucket_key picked.2 left_mins,
           descriptionStr bucket_key picked.1 picked.2,
           now, e.stop, bucket_key,
           Py.intercalate "," picked.1,
           "reflow:" ++ bucket_key ++ ":" ++ now_iso⟩

end Reflow


end Helios

open Helios

/-- A first-call/second-call pair used as a concrete seed for C1. -/
def c1SeedDb : Ingest.Db :=
  ⟨[⟨"c1", "jane@example.com"⟩], [], [], [], [], [], false, false⟩

/-- The concrete C1 request. -/
def c1SeedReq : Ingest.EmailTaskIn :=
  ⟨"rfc:ABC", "jane@example.com", some "Hi", none, none, none, none, none, none,
   none, none, none, false⟩

/-- C5 concrete scenario: a config with `weekly_weights[client_deep_work] = 2`
and a 30-minute gap-filling client rule, no personal windows, and per-day caps
only for systems/admin/personal (mirroring DEFAULT_CONFIG's shape). -/
def c5Cfg : Sched.SchedulerConfig :=
  { coreStart := 540, coreEnd := 1080,
    weeklyWeights := fun bt => match bt with
      | .client_deep_work => 2
      | _ => 0,
    rules := fun bt => match bt with
      | .client_deep_work => ⟨30, 30, ["gaps"]⟩
      | .systems_development => ⟨120, 180, ["mid_morning", "early_afternoon"]⟩
      | .marketing_creative => ⟨60, 90, ["afternoon"]⟩
      | .admin_processing => ⟨30, 60, ["late_afternoon", "gaps"]⟩
      | .personal => ⟨30, 90, ["personal_window"]⟩,
    minContiguousMinutesForSystems := 120,
    capBlocksPerDay := [(.systems_development, 1), (.admin_processing, 2),
      (.personal, 2)],
    personalWindows := fun _ => [] }

/-- C5 concrete scenario: one pending client task with 120 remaining minutes. -/
def c5Tasks : Sched.BlockType → List Sched.Task := fun bt => match bt with
  | .client_deep_work =>
    [⟨"T1", "Deep task", .client_deep_work, 120, none, none⟩]
  | _ => []

/-- C10 concrete scenario: every day has one fixed busy interval 10:00-11:00. -/
def c10Fetch : Int → List Sched.Interval := fun _ => [⟨600, 660⟩]

/-- A default event used with `List.getD` to pick a concrete emitted block. -/
def c10DefEv : Sched.Event :=
  ⟨0, 0, "", "", Sched.BlockType.admin_processing, [], []⟩

/-- C8 concrete scenario: pending client tasks T2 (60 min) and T3 (30 min). -/
def c8Grouped : String → List Reflow.RfTask := fun b =>
  if b = "client_deep_work" then
    [⟨"T2", "Task two", none, none, some 60⟩,
     ⟨"T3", "Task three", none, none, some 30⟩]
  else []

/-- C8 concrete scenario: the current Helios block 10:00-12:00 (minutes
600-720) holding task T1, reflowed at 10:45 (minute 645). -/
def c8Event : Reflow.RfEvent :=
  ⟨"E1", "[BLOCK] Client Deep Work: T1", 600, 720, true, "client_deep_work",
   "T1"⟩

/-! ## Helper lemmas (shared) -/

theorem find?_append_of_none {α} (l1 l2 : List α) (p : α → Bool)
    (h : l1.find? p = none) : (l1 ++ l2).find? p = l2.find? p := by
  simp [List.find?_append, h]

theorem filter_eq_nil_of_find?_none {α} (l : List α) (p : α → Bool)
    (h : l.find? p = none) : l.filter p = [] := by
  simp only [List.find?_eq_none] at h
  simp only [List.filter_eq_nil_iff]
  intro a ha
  exact h a ha

/-- The dedupe short-circuit of `create_task_from_email`: an existing
`ProcessedEmail` row for the message id yields reason `"duplicate"` with the
existing task id and no state change. -/
theorem createTask_duplicate_of_find? (db : Ingest.Db) (q : Ingest.EmailTaskIn)
    (now2 : Int) (row : Ingest.ProcessedEmailRow)
    (h : db.processedEmails.find? (fun r => r.messageId = q.messageId) =
      some row) :
    Ingest.createTaskFromEmail db q now2 =
      (db, ⟨row.heliosTaskId, true, some "duplicate"⟩) := by
  unfold Ingest.createTaskFromEmail
  rw [h]

/-! ## C1 -/

/-- C1: for an allowlisted sender and a fresh message id `m`, submitting the
ingestion operation twice creates exactly one `EmailTask` row and exactly one
`ProcessedEmail` row; the first call returns reason `"created"` with
`helios_task_id = m`, the second returns reason `"duplicate"` with the
existing task id and leaves the database unchanged. -/
theorem c1_duplicate_ingestion
    (db : Ingest.Db) (p q : Ingest.EmailTaskIn) (now now2 : Int)
    (hmid : q.messageId = p.messageId)
    (hnew : db.processedEmails.find?
      (fun r => r.messageId = p.messageId) = none)
    (hnotask : db.emailTasks.filter (fun r => r.id = p.messageId) = [])
    (hdry : p.dryRun = false)
    (hallow : Ingest.isSenderAllowlisted db p.sender = true) :
    (Ingest.createTaskFromEmail db p now).2.reason = some "created" ∧
    (Ingest.createTaskFromEmail db p now).2.heliosTaskId = some p.messageId ∧
    (Ingest.createTaskFromEmail
      (Ingest.createTaskFromEmail db p now).1 q now2).2.reason =
        some "duplicate" ∧
    (Ingest.createTaskFromEmail
      (Ingest.createTaskFromEmail db p now).1 q now2).2.heliosTaskId =
        some p.messageId ∧
    (Ingest.createTaskFromEmail
      (Ingest.createTaskFromEmail db p now).1 q now2).1 =
        (Ingest.createTaskFromEmail db p now).1 ∧
    ((Ingest.createTaskFromEmail db p now).1.emailTasks.filter
      (fun r => r.id = p.messageId)).length = 1 ∧
    ((Ingest.createTaskFromEmail db p now).1.processedEmails.filter
      (fun r => r.messageId = p.messageId)).length = 1 := by
  have h1 : Ingest.createTaskFromEmail db p now =
      ({ db with
          emailTasks := db.emailTasks ++
            [{ id := p.messageId
               clientId := Ingest.resolveClientId db p.sender
               sender := p.sender
               subject := Py.take 500 (p.subject.getD "")
               snippet := Py.take 500 (p.content.getD "")
               bodyText := p.content.getD ""
               createdAt := p.receivedTs.getD now
               gmailLink := p.gmailLink
               threadId := p.threadId
               receivedAt := p.receivedTs.getD now
               sourceLabel := p.sourceLabel
               priority := Ingest.orElseStr p.priority "normal"
               clientKeyHint := p.clientHint }]
          taskMeta := db.taskMeta ++
            (if p.startTs.isSome ∨ p.dueTs.isSome then
              [{ taskId := p.messageId, startAt := p.startTs, dueAt := p.dueTs,
                 source := "email" }]
             else [])
          processedEmails := db.processedEmails ++
            [⟨p.messageId, some p.messageId, "created", p.receivedTs.getD now,
              now⟩] },
       ⟨some p.messageId, true, some "created"⟩) := by
    unfold Ingest.createTaskFromEmail
    rw [hnew]
    simp [hdry, hallow]
  have hfind2 : ((Ingest.createTaskFromEmail db p now).1.processedEmails.find?
      (fun r => r.messageId = q.messageId)) =
      some ⟨p.messageId, some p.messageId, "created", p.receivedTs.getD now,
        now⟩ := by
    rw [h1, hmid]
    rw [find?_append_of_none _ _ _ hnew]
    simp [List.find?]
  have hpf : db.processedEmails.filter
      (fun r => r.messageId = p.messageId) = [] :=
    filter_eq_nil_of_find?_none _ _ hnew
  have hdup := createTask_duplicate_of_find?
    (Ingest.createTaskFromEmail db p now).1 q now2 _ hfind2
  refine ⟨by rw [h1], by rw [h1], ?_, ?_, ?_, ?_, ?_⟩
  · rw [hdup]
  · rw [hdup]
  · rw [hdup]
  · rw [h1]
    simp [List.filter_append, hnotask, List.filter]
  · rw [h1]
    simp [List.filter_append, hpf, List.filter]

/-- Witness for C1 at a concrete database and request. -/
theorem c1_duplicate_ingestion_witness :
    (Ingest.createTaskFromEmail c1SeedDb c1SeedReq 0).2.reason =
      some "created" ∧
    (Ingest.createTaskFromEmail
      (Ingest.createTaskFromEmail c1SeedDb c1SeedReq 0).1
        c1SeedReq 1).2.reason = some "duplicate" ∧
    ((Ingest.createTaskFromEmail c1SeedDb c1SeedReq 0).1.emailTasks.filter
      (fun r => r.id = c1SeedReq.messageId)).length = 1 ∧
    ((Ingest.createTaskFromEmail c1SeedDb c1SeedReq 0).1.processedEmails.filter
      (fun r => r.messageId = c1SeedReq.messageId)).length = 1 := by
  have h := c1_duplicate_ingestion c1SeedDb c1SeedReq c1SeedReq 0 1
    rfl (by decide) (by decide) rfl (by decide)
  exact ⟨h.1, h.2.2.1, h.2.2.2.2.2.1, h.2.2.2.2.2.2⟩

/-! ## C6 -/

/-- C6 counterexample: with an empty allowlist (so the sender is not allowed)
and a fresh message id, a `dry_run=true` request returns reason `"dry_run"`,
not `"rejected_allowlist"`, and nothing is recorded — the route checks the
dry-run flag before the allowlist. -/
theorem c6_counterexample :
    Ingest.isSenderAllowlisted ⟨[], [], [], [], [], [], false, false⟩
      "eve@unknown.com" = false ∧
    (Ingest.createTaskFromEmail ⟨[], [], [], [], [], [], false, false⟩
      ⟨"m-dry-1", "eve@unknown.com", some "Hello", none, none, none, none, none,
       none, none, none, none, true⟩ 0).2.reason = some "dry_run" ∧
    (Ingest.createTaskFromEmail ⟨[], [], [], [], [], [], false, false⟩
      ⟨"m-dry-1", "eve@unknown.com", some "Hello", none, none, none, none, none,
       none, none, none, none, true⟩ 0).2.reason ≠ some "rejected_allowlist" ∧
    (Ingest.createTaskFromEmail ⟨[], [], [], [], [], [], false, false⟩
      ⟨"m-dry-1", "eve@unknown.com", some "Hello", none, none, none, none, none,
       none, none, none, none, true⟩ 0).1 =
      ⟨[], [], [], [], [], [], false, false⟩ := by
  refine ⟨rfl, rfl, by decide, rfl⟩

/-- C6 (amended): the route checks dedupe, then dry-run, then the allowlist:
a `dry_run=true` request with a new message id returns reason `"dry_run"` and
writes nothing regardless of the allowlist, and reason `"rejected_allowlist"`
is produced only on non-dry-run requests whose sender fails the check. -/
theorem c6_amended_dry_run_precedes_allowlist
    (db : Ingest.Db) (p : Ingest.EmailTaskIn) (now : Int)
    (hnew : db.processedEmails.find?
      (fun r => r.messageId = p.messageId) = none) :
    (p.dryRun = true →
      Ingest.createTaskFromEmail db p now = (db, ⟨none, true, some "dry_run"⟩)) ∧
    (p.dryRun = false → Ingest.isSenderAllowlisted db p.sender = false →
      (Ingest.createTaskFromEmail db p now).2.reason =
        some "rejected_allowlist") := by
  constructor
  · intro hdry
    unfold Ingest.createTaskFromEmail
    rw [hnew]
    simp [hdry]
  · intro hdry hdeny
    unfold Ingest.createTaskFromEmail
    rw [hnew]
    simp [hdry, hdeny]

/-- Witness for the amended C6 at a concrete input. -/
theorem c6_amended_witness :
    Ingest.createTaskFromEmail ⟨[], [], [], [], [], [], false, false⟩
      ⟨"m-dry-2", "eve@unknown.com", none, none, none, none, none, none,
       none, none, none, none, true⟩ 3 =
      (⟨[], [], [], [], [], [], false, false⟩, ⟨none, true, some "dry_run"⟩) :=
  (c6_amended_dry_run_precedes_allowlist
    ⟨[], [], [], [], [], [], false, false⟩
    ⟨"m-dry-2", "eve@unknown.com", none, none, none, none, none, none,
     none, none, none, none, true⟩ 3 (by decide)).1 rfl

/-! ## C9 -/

/-- C9: the ingestion allowlist check fails closed: if the `client_emails`
query errors, or the `client_emails` lookup finds nothing and the
`client_domains` query errors, the check returns `false`, and a non-dry-run
request with a fresh message id is rejected (reason `"rejected_allowlist"`)
with no `EmailTask` created. -/
theorem c9_allowlist_fails_closed
    (db : Ingest.Db) (p : Ingest.EmailTaskIn) (now : Int)
    (hdown : db.emailsTableDown = true ∨
      (db.domainsTableDown = true ∧
        ∀ r ∈ db.clientEmails, ¬ Py.lower r.email = Py.lower p.sender))
    (hnew : db.processedEmails.find?
      (fun r => r.messageId = p.messageId) = none)
    (hdry : p.dryRun = false) :
    Ingest.isSenderAllowlisted db p.sender = false ∧
    (Ingest.createTaskFromEmail db p now).2.reason =
      some "rejected_allowlist" ∧
    (Ingest.createTaskFromEmail db p now).1.emailTasks = db.emailTasks := by
  have hdeny : Ingest.isSenderAllowlisted db p.sender = false := by
    unfold Ingest.isSenderAllowlisted
    rcases hdown with hd | ⟨hd, hmem⟩
    · simp [hd]
    · by_cases he : db.emailsTableDown = true
      · simp [he]
      · simp only [Bool.not_eq_true] at he
        have hany : db.clientEmails.any
            (fun r => Py.lower r.email = Py.lower p.sender) = false := by
          simp only [List.any_eq_false, decide_eq_true_eq]
          exact hmem
        simp only [he, Bool.false_eq_true, if_false, hany]
        cases hEd : Ingest.emailDomain p.sender with
        | none => simp
        | some d => simp [hd]
  refine ⟨hdeny, ?_, ?_⟩
  · unfold Ingest.createTaskFromEmail
    rw [hnew]
    simp [hdry, hdeny]
  · unfold Ingest.createTaskFromEmail
    rw [hnew]
    simp [hdry, hdeny]

/-! ## C4 helpers -/

theorem insertOrIgnoreEmail_version (db : Contacts.Db) (a b c d : String) :
    (Contacts.insertOrIgnoreEmail db a b c d).allowlistVersion =
      db.allowlistVersion := by
  unfold Contacts.insertOrIgnoreEmail
  split <;> rfl

theorem insertOrIgnoreDomain_version (db : Contacts.Db) (a b c : String)
    (w : Bool) (d : String) :
    (Contacts.insertOrIgnoreDomain db a b c w d).allowlistVersion =
      db.allowlistVersion := by
  unfold Contacts.insertOrIgnoreDomain
  split <;> rfl

theorem insertClientEmails_version (db : Contacts.Db) (cid now : String)
    (es : List String) (fresh : Nat → String) :
    (Contacts.insertClientEmails db cid now es fresh).allowlistVersion =
      db.allowlistVersion := by
  unfold Contacts.insertClientEmails
  generalize es.enum = l
  induction l generalizing db with
  | nil => rfl
  | cons p t ih =>
    simp only [List.foldl_cons]
    rw [ih]
    split
    · rfl
    · rw [insertOrIgnoreEmail_version]

theorem insertClientDomains_version (db : Contacts.Db) (cid now : String)
    (ds : List Contacts.DomainIn) (fresh : Nat → String) :
    (Contacts.insertClientDomains db cid now ds fresh).allowlistVersion =
      db.allowlistVersion := by
  unfold Contacts.insertClientDomains
  generalize ds.enum = l
  induction l generalizing db with
  | nil => rfl
  | cons p t ih =>
    simp only [List.foldl_cons]
    rw [ih]
    rw [insertOrIgnoreDomain_version]

/-! ## C2 -/

/-- C2 counterexample: the spec's scenario (allowlist contains only domain
`acme.com`; request from `eve@unknown.com` with fresh id `m1`).  The route
returns `"rejected_allowlist"` and writes the rejected `ProcessedEmail` row,
but records no unknown-sender row at all — `unknown_senders` stays empty,
contradicting the claimed `hits=1, status=pending` row. -/
theorem c2_counterexample :
    Ingest.isSenderAllowlisted
      ⟨[], [⟨"c1", "acme.com", true⟩], [], [], [], [], false, false⟩
      "eve@unknown.com" = false ∧
    (Ingest.createTaskFromEmail
      ⟨[], [⟨"c1", "acme.com", true⟩], [], [], [], [], false, false⟩
      ⟨"m1", "eve@unknown.com", some "Hello", none, none, none, none, none,
       none, none, none, none, false⟩ 0).2.reason = some "rejected_allowlist" ∧
    (Ingest.createTaskFromEmail
      ⟨[], [⟨"c1", "acme.com", true⟩], [], [], [], [], false, false⟩
      ⟨"m1", "eve@unknown.com", some "Hello", none, none, none, none, none,
       none, none, none, none, false⟩ 0).1.unknownSenders = [] ∧
    (Ingest.createTaskFromEmail
      ⟨[], [⟨"c1", "acme.com", true⟩], [], [], [], [], false, false⟩
      ⟨"m1", "eve@unknown.com", some "Hello", none, none, none, none, none,
       none, none, none, none, false⟩ 0).1.emailTasks = [] ∧
    ((Ingest.createTaskFromEmail
      ⟨[], [⟨"c1", "acme.com", true⟩], [], [], [], [], false, false⟩
      ⟨"m1", "eve@unknown.com", some "Hello", none, none, none, none, none,
       none, none, none, none, false⟩ 0).1.processedEmails.map
        (fun r => r.status)) = ["rejected_allowlist"] := by
  refine ⟨rfl, rfl, rfl, rfl, rfl⟩

/-- C2 (amended): on a rejected sender with a fresh message id (not dry-run),
the ingestion route writes exactly one `ProcessedEmail` row with status
`rejected_allowlist`, creates no `EmailTask`, returns reason
`"rejected_allowlist"`, and records no unknown-sender row; pending
`hits=1` unknown-sender rows are created only by the separate
`POST /unknown-senders` operation. -/
theorem c2_amended_rejection_behavior
    (db : Ingest.Db) (p : Ingest.EmailTaskIn) (now : Int)
    (hnew : db.processedEmails.find?
      (fun r => r.messageId = p.messageId) = none)
    (hdry : p.dryRun = false)
    (hdeny : Ingest.isSenderAllowlisted db p.sender = false) :
    Ingest.createTaskFromEmail db p now =
      ({ db with processedEmails := db.processedEmails ++
          [⟨p.messageId, none, "rejected_allowlist", p.receivedTs.getD now,
            now⟩] },
       ⟨none, true, some "rejected_allowlist"⟩) ∧
    (Ingest.createTaskFromEmail db p now).1.unknownSenders =
      db.unknownSenders ∧
    (Ingest.createTaskFromEmail db p now).1.emailTasks = db.emailTasks ∧
    (∀ (cdb : Contacts.Db) (body : Contacts.UnknownCreate) (ns fid : String),
      ¬ Py.lower (Py.strip body.email) = "" →
      ¬ Py.strip body.messageId = "" →
      cdb.unknownSenders.find? (fun r =>
        r.email = Py.lower (Py.strip body.email) ∧
        r.messageId = Py.strip body.messageId) = none →
      Contacts.autoMatchClient cdb (Py.lower (Py.strip body.email)) = none →
      Contacts.createUnknownSender cdb body ns fid =
        .ok ({ cdb with unknownSenders := cdb.unknownSenders ++
            [{ id := fid, email := Py.lower (Py.strip body.email), domain := "",
               messageId := Py.strip body.messageId,
               lastMessageId := Py.strip body.messageId,
               subject := body.subject, firstSeen := ns, lastSeen := ns,
               hits := 1, status := "pending", clientId := none,
               resolved := false }] }, fid, none)) := by
  have hrej : Ingest.createTaskFromEmail db p now =
      ({ db with processedEmails := db.processedEmails ++
          [⟨p.messageId, none, "rejected_allowlist", p.receivedTs.getD now,
            now⟩] },
       ⟨none, true, some "rejected_allowlist"⟩) := by
    unfold Ingest.createTaskFromEmail
    rw [hnew]
    simp [hdry, hdeny]
  refine ⟨hrej, by rw [hrej], by rw [hrej], ?_⟩
  intro cdb body ns fid hne hnm hfind hmatch
  unfold Contacts.createUnknownSender
  have hmatch' : Contacts.autoMatchClient
      { cdb with unknownSenders := cdb.unknownSenders ++
          [{ id := fid, email := Py.lower (Py.strip body.email), domain := "",
             messageId := Py.strip body.messageId,
             lastMessageId := Py.strip body.messageId,
             subject := body.subject, firstSeen := ns, lastSeen := ns,
             hits := 1, status := "pending", clientId := none,
             resolved := false }] }
      (Py.lower (Py.strip body.email)) = none := hmatch
  simp only [Bool.decide_and] at hfind
  simp [hne, hnm, hfind, hmatch']

/-- Witness for the amended C2 at the spec's concrete rejected request. -/
theorem c2_amended_witness :
    Ingest.createTaskFromEmail
      ⟨[], [⟨"c1", "acme.com", true⟩], [], [], [], [], false, false⟩
      ⟨"m1", "eve@unknown.com", some "Hello", none, none, none, none, none,
       none, none, none, none, false⟩ 0 =
      ({ clientEmails := [], clientDomains := [⟨"c1", "acme.com", true⟩],
         emailTasks := [], taskMeta := [],
         processedEmails := [⟨"m1", none, "rejected_allowlist", 0, 0⟩],
         unknownSenders := [], emailsTableDown := false,
         domainsTableDown := false },
       ⟨none, true, some "rejected_allowlist"⟩) :=
  (c2_amended_rejection_behavior
    ⟨[], [⟨"c1", "acme.com", true⟩], [], [], [], [], false, false⟩
    ⟨"m1", "eve@unknown.com", some "Hello", none, none, none, none, none,
     none, none, none, none, false⟩ 0 rfl rfl (by decide)).1

/-! ## C3 -/

/-- C3 counterexample: with wildcard `ClientDomain` `acme.com` present,
`ops@eu.acme.com` has a proper-subdomain domain (`eu.acme.com` ends with
`".acme.com"`), yet the ingestion route's allowlist check denies it —
`_is_sender_allowlisted` does exact-domain matching only. -/
theorem c3_counterexample :
    Py.endsWith "eu.acme.com" (".acme.com") = true ∧
    Ingest.isSenderAllowlisted
      ⟨[], [⟨"c1", "acme.com", true⟩], [], [], [], [], false, false⟩
      "ops@eu.acme.com" = false := ⟨rfl, rfl⟩

/-- C3 (amended): the check used by the ingestion route allows exactly the
senders with an exact (lowercased) email match or an exact (lowercased)
domain match, ignoring the wildcard flag and subdomains; the claimed
equal-or-proper-subdomain wildcard semantics is implemented by the separate
`allowlist_client.build_checker`, which allows `ops@eu.acme.com` and denies
`ops@acme.co` under wildcard domain `acme.com`, while the ingestion route
denies both. -/
theorem c3_amended_allowlist_semantics :
    (∀ (db : Ingest.Db) (s : String),
      db.emailsTableDown = false → db.domainsTableDown = false →
      (Ingest.isSenderAllowlisted db s = true ↔
        (∃ r ∈ db.clientEmails, Py.lower r.email = Py.lower s) ∨
        (∃ d, Ingest.emailDomain s = some d ∧
          ∃ r ∈ db.clientDomains, Py.lower r.domain = d))) ∧
    (∀ (al : AllowClient.Snapshot) (s wd : String),
      (∃ d ∈ al.domains, d.wildcard = true ∧
        Py.strip (Py.lower d.domain) = wd ∧ ¬ wd = "") →
      (AllowClient.domainOf (AllowClient.normalizeEmail s) = wd ∨
        Py.endsWith (AllowClient.domainOf (AllowClient.normalizeEmail s))
          ("." ++ wd) = true) →
      ¬ AllowClient.normalizeEmail s = "" →
      AllowClient.isAllowed al s = true) ∧
    AllowClient.isAllowed ⟨[], [⟨"acme.com", true⟩]⟩ "ops@eu.acme.com" = true ∧
    AllowClient.isAllowed ⟨[], [⟨"acme.com", true⟩]⟩ "ops@acme.co" = false ∧
    Ingest.isSenderAllowlisted
      ⟨[], [⟨"c1", "acme.com", true⟩], [], [], [], [], false, false⟩
      "ops@acme.co" = false := by
  refine ⟨?_, ?_, rfl, rfl, rfl⟩
  · intro db s hE hD
    unfold Ingest.isSenderAllowlisted
    simp only [hE, Bool.false_eq_true, if_false]
    by_cases hany : db.clientEmails.any
        (fun r => Py.lower r.email = Py.lower s) = true
    · simp only [hany, if_true, true_iff]
      left
      simpa [List.any_eq_true] using hany
    · simp only [Bool.not_eq_true] at hany
      simp only [hany, Bool.false_eq_true, if_false]
      cases hEd : Ingest.emailDomain s with
      | none =>
        simp only [Bool.false_eq_true, false_iff]
        rintro (⟨r, hr, hre⟩ | ⟨d, hd, _⟩)
        · exact absurd (by simpa using hre)
            (by simpa using List.any_eq_false.mp hany r hr)
        · exact absurd hd (by simp)
      | some d =>
        simp only [hD, Bool.false_eq_true, if_false]
        constructor
        · intro h2
          right
          refine ⟨d, rfl, ?_⟩
          simpa [List.any_eq_true] using h2
        · intro h2
          rcases h2 with ⟨r, hr, hre⟩ | ⟨d', hd', r, hr, hre⟩
          · exact absurd (by simpa using hre)
              (by simpa using List.any_eq_false.mp hany r hr)
          · have hdd : d' = d := by
              injection hd' with h
              exact h.symm
            subst hdd
            simp only [List.any_eq_true]
            exact ⟨r, hr, by simpa using hre⟩
  · intro al s wd hex hmatch hs
    rcases hex with ⟨d0, hd0, hwc, hnorm, hne⟩
    unfold AllowClient.isAllowed
    rw [if_neg hs]
    by_cases hc : (al.emails.map AllowClient.normalizeEmail).contains
        (AllowClient.normalizeEmail s) = true
    · rw [if_pos hc]
    · rw [if_neg hc]
      have hmem : wd ∈ ((al.domains.filter (fun d => d.wildcard)).map
          (fun d => Py.strip (Py.lower d.domain))).filter (fun d => d ≠ "") := by
        refine List.mem_filter.mpr ⟨?_, by simpa using hne⟩
        refine List.mem_map.mpr ⟨d0, ?_, hnorm⟩
        exact List.mem_filter.mpr ⟨hd0, by simpa using hwc⟩
      have hpred : (fun w =>
          AllowClient.domainOf (AllowClient.normalizeEmail s) = w ||
            Py.endsWith (AllowClient.domainOf (AllowClient.normalizeEmail s))
              ("." ++ w)) wd = true := by
        rcases hmatch with h | h
        · simp [h]
        · simp [h]
      refine Bool.or_eq_true_iff.mpr (Or.inr ?_)
      exact List.any_eq_true.mpr ⟨wd, hmem, by simpa using hpred⟩

/-- Witness for the amended C3: the wildcard-subdomain clause of
`build_checker` applied at `acme.com` / `x@sub.acme.com`. -/
theorem c3_amended_witness :
    AllowClient.isAllowed ⟨[], [⟨"acme.com", true⟩]⟩ "x@sub.acme.com" = true :=
  c3_amended_allowlist_semantics.2.1 ⟨[], [⟨"acme.com", true⟩]⟩
    "x@sub.acme.com" "acme.com"
    ⟨⟨"acme.com", true⟩, by decide, rfl, rfl, by decide⟩
    (Or.inr rfl) (by decide)

/-- Witness for C9: both allowlist tables erroring at a concrete request. -/
theorem c9_allowlist_fails_closed_witness :
    Ingest.isSenderAllowlisted
      ⟨[⟨"c1", "jane@example.com"⟩], [⟨"c1", "example.com", false⟩], [], [], [],
       [], true, true⟩ "jane@example.com" = false ∧
    (Ingest.createTaskFromEmail
      ⟨[⟨"c1", "jane@example.com"⟩], [⟨"c1", "example.com", false⟩], [], [], [],
       [], true, true⟩
      ⟨"m-down-1", "jane@example.com", none, none, none, none, none, none,
       none, none, none, none, false⟩ 0).2.reason =
      some "rejected_allowlist" := by
  have h := c9_allowlist_fails_closed
    ⟨[⟨"c1", "jane@example.com"⟩], [⟨"c1", "example.com", false⟩], [], [], [],
     [], true, true⟩
    ⟨"m-down-1", "jane@example.com", none, none, none, none, none, none,
     none, none, none, none, false⟩ 0 (Or.inl rfl) (by decide) rfl
  exact ⟨h.1, h.2.1⟩

/-! ## C4 -/

/-- C4 counterexample: `update_client` replaces a client's email set (a
`ClientEmail` delete + insert) yet `allowlist_meta.version` stays at 5 — the
client create/update routes never touch the version. -/
theorem c4_counterexample :
    ((Contacts.updateClient
      ⟨[⟨"c1", "Acme", none, none, [], true, "t0", "t0"⟩],
       [⟨"e1", "c1", "old@acme.com", "t0"⟩], [], [], 5, "t0"⟩
      "c1" ⟨none, none, none, none, some ["new@acme.com"], none, none⟩ "t1"
      (fun n => "g" ++ toString n)).map
      (fun db' => (db'.clientEmails.map (fun r => r.email),
        db'.allowlistVersion))).toOption =
    some (["new@acme.com"], 5) := by decide

/-- C4 (amended): only the unknown-sender resolve operation with an approve
action increments `AllowlistMeta.version` (by exactly one, in a transaction
separate from the row insert); the client create and client update
operations insert/delete `ClientEmail`/`ClientDomain` rows without changing
the version. -/
theorem c4_amended_version_bump
    (db : Contacts.Db) (uid : String) (body : Contacts.UnknownResolve)
    (now fid : String) (db' : Contacts.Db)
    (happrove : body.action = "approve_email" ∨ body.action = "approve_domain")
    (hok : Contacts.resolveUnknown db uid body now fid = .ok db') :
    (db'.allowlistVersion = db.allowlistVersion + 1 ∧
      db.allowlistVersion < db'.allowlistVersion) ∧
    (∀ (b : Contacts.ClientCreate) (n c : String) (f : Nat → String)
        (d2 : Contacts.Db) (s : String),
      Contacts.createClient db b n c f = .ok (d2, s) →
      d2.allowlistVersion = db.allowlistVersion) ∧
    (∀ (cid : String) (b : Contacts.ClientUpdate) (n : String)
        (f : Nat → String) (d2 : Contacts.Db),
      Contacts.updateClient db cid b n f = .ok d2 →
      d2.allowlistVersion = db.allowlistVersion) := by
  refine ⟨?_, ?_, ?_⟩
  · unfold Contacts.resolveUnknown at hok
    cases hfind : db.unknownSenders.find? (fun r => r.id = uid) with
    | none => rw [hfind] at hok; exact absurd hok (by simp)
    | some unk =>
      rw [hfind] at hok
      rcases happrove with h | h
      all_goals
        rw [h] at hok
        simp only [String.reduceEq, if_false] at hok
      all_goals
        cases hcid : body.clientId with
        | none => rw [hcid] at hok; exact absurd hok (by simp)
        | some cid =>
          rw [hcid] at hok
          by_cases hce : cid = ""
          · simp only [hce, if_true] at hok
            exact absurd hok (by simp)
          · simp only [hce, if_false, if_true, Except.ok.injEq] at hok
            subst hok
            constructor
            · show (Contacts.finishResolve _ uid cid now).allowlistVersion =
                db.allowlistVersion + 1
              unfold Contacts.finishResolve
              first
              | (show (Contacts.insertOrIgnoreEmail db fid cid
                    (Py.strip (Py.lower unk.email)) now).allowlistVersion + 1 =
                    db.allowlistVersion + 1
                 rw [insertOrIgnoreEmail_version])
              | (show (Contacts.insertOrIgnoreDomain db fid cid
                    ((Py.splitChar '@' (Py.strip (Py.lower unk.email))).getLastD
                      (Py.strip (Py.lower unk.email))) body.wildcard
                    now).allowlistVersion + 1 = db.allowlistVersion + 1
                 rw [insertOrIgnoreDomain_version])
            · show db.allowlistVersion < (Contacts.finishResolve _ uid cid
                now).allowlistVersion
              unfold Contacts.finishResolve
              first
              | (show db.allowlistVersion < (Contacts.insertOrIgnoreEmail db fid
                    cid (Py.strip (Py.lower unk.email)) now).allowlistVersion + 1
                 rw [insertOrIgnoreEmail_version]; omega)
              | (show db.allowlistVersion <
                    (Contacts.insertOrIgnoreDomain db fid cid
                      ((Py.splitChar '@'
                        (Py.strip (Py.lower unk.email))).getLastD
                        (Py.strip (Py.lower unk.email))) body.wildcard
                      now).allowlistVersion + 1
                 rw [insertOrIgnoreDomain_version]; omega)
  · intro b n c f d2 s hcc
    unfold Contacts.createClient at hcc
    by_cases hdup : db.clients.any (fun cl => cl.name = Py.strip b.name)
    · rw [if_pos hdup] at hcc
      exact absurd hcc (by simp)
    · rw [if_neg hdup] at hcc
      simp only [Except.ok.injEq, Prod.mk.injEq] at hcc
      rcases hcc with ⟨hd2, _⟩
      subst hd2
      rw [insertClientDomains_version, insertClientEmails_version]
  · intro cid b n f d2 hup
    unfold Contacts.updateClient at hup
    cases hfind : db.clients.find? (fun cl => cl.id = cid) with
    | none => rw [hfind] at hup; exact absurd hup (by simp)
    | some cur =>
      rw [hfind] at hup
      simp only [Except.ok.injEq] at hup
      subst hup
      cases b.domains with
      | none =>
        cases b.emails with
        | none => rfl
        | some es => rw [insertClientEmails_version]
      | some ds =>
        rw [insertClientDomains_version]
        cases b.emails with
        | none => rfl
        | some es => rw [insertClientEmails_version]

/-- Witness for the amended C4: resolving a pending unknown sender with
`approve_email` bumps the version from 5 to 6. -/
theorem c4_amended_witness :
    ((⟨[⟨"c1", "Acme", none, none, [], true, "t0", "t0"⟩],
       [⟨"g1", "c1", "eve@x.com", "t1"⟩], [],
       [⟨"u1", "eve@x.com", "", "m1", "m1", "Hi", "t0", "t0", 1, "resolved",
         some "c1", true⟩], 6, "t1"⟩ : Contacts.Db).allowlistVersion =
      (⟨[⟨"c1", "Acme", none, none, [], true, "t0", "t0"⟩], [], [],
        [⟨"u1", "eve@x.com", "", "m1", "m1", "Hi", "t0", "t0", 1, "pending",
          none, false⟩], 5, "t0"⟩ : Contacts.Db).allowlistVersion + 1) ∧
    ((⟨[⟨"c1", "Acme", none, none, [], true, "t0", "t0"⟩], [], [],
       [⟨"u1", "eve@x.com", "", "m1", "m1", "Hi", "t0", "t0", 1, "pending",
         none, false⟩], 5, "t0"⟩ : Contacts.Db).allowlistVersion <
      (⟨[⟨"c1", "Acme", none, none, [], true, "t0", "t0"⟩],
        [⟨"g1", "c1", "eve@x.com", "t1"⟩], [],
        [⟨"u1", "eve@x.com", "", "m1", "m1", "Hi", "t0", "t0", 1, "resolved",
          some "c1", true⟩], 6, "t1"⟩ : Contacts.Db).allowlistVersion) :=
  (c4_amended_version_bump
    ⟨[⟨"c1", "Acme", none, none, [], true, "t0", "t0"⟩], [], [],
     [⟨"u1", "eve@x.com", "", "m1", "m1", "Hi", "t0", "t0", 1, "pending",
       none, false⟩], 5, "t0"⟩
    "u1" ⟨"approve_email", some "c1", false⟩ "t1" "g1"
    ⟨[⟨"c1", "Acme", none, none, [], true, "t0", "t0"⟩],
     [⟨"g1", "c1", "eve@x.com", "t1"⟩], [],
     [⟨"u1", "eve@x.com", "", "m1", "m1", "Hi", "t0", "t0", 1, "resolved",
       some "c1", true⟩], 6, "t1"⟩
    (Or.inl rfl) rfl).1



/-! ## C7 -/

/-- `INSERT OR IGNORE INTO client_emails` leaves `unknown_senders` alone. -/
theorem insertOrIgnoreEmail_unknowns (db : Contacts.Db) (a b c d : String) :
    (Contacts.insertOrIgnoreEmail db a b c d).unknownSenders =
      db.unknownSenders := by
  unfold Contacts.insertOrIgnoreEmail
  split <;> rfl

/-- `INSERT OR IGNORE INTO client_domains` leaves `unknown_senders` alone. -/
theorem insertOrIgnoreDomain_unknowns (db : Contacts.Db) (a b c : String)
    (w : Bool) (d : String) :
    (Contacts.insertOrIgnoreDomain db a b c w d).unknownSenders =
      db.unknownSenders := by
  unfold Contacts.insertOrIgnoreDomain
  split <;> rfl

/-- Status of any row after the auto-match `status='matched'` update: the
targeted id is `"matched"`, other rows keep their status. -/
theorem matchedMap_status (l : List Contacts.UnknownSenderRow)
    (uid cid : String) (r' : Contacts.UnknownSenderRow)
    (hr' : r' ∈ l.map (fun r => if r.id = uid then
      { r with clientId := some cid, status := "matched" } else r))
    (hid : r'.id = uid) : r'.status = "matched" := by
  simp only [List.mem_map] at hr'
  rcases hr' with ⟨r0, _, hr0e⟩
  by_cases h0 : r0.id = uid
  · rw [← hr0e]
    simp [h0]
  · rw [← hr0e] at hid
    simp only [h0, if_false] at hid

/-- C7 counterexample: an unknown-sender row already resolved via
`approve_email` (so its address is now in `client_emails`) is observed again;
the record operation's auto-match step sets its status back to `"matched"`,
so the `{resolved, ignored}` states are not terminal. -/
theorem c7_counterexample :
    ((Contacts.createUnknownSender
      ⟨[⟨"c1", "Acme", none, none, [], true, "t0", "t0"⟩],
       [⟨"e1", "c1", "eve@x.com", "t0"⟩], [],
       [⟨"u1", "eve@x.com", "", "m1", "m1", "Hi", "t0", "t0", 1, "resolved",
         some "c1", true⟩], 7, "t0"⟩
      ⟨"eve@x.com", "m1", "Hi again"⟩ "t1" "fresh1").map
      (fun r => r.1.unknownSenders.map
        (fun u => (u.id, u.status, u.hits)))).toOption =
    some [("u1", "matched", 2)] := by decide

/-- C7 (amended): the resolve operation moves a row's status only into
`{"resolved", "ignored"}`, and a repeated observation whose auto-match finds
no client preserves every existing row's status (a new row starts
`"pending"`); but the auto-match step of the record operation sets the
observed row's status to `"matched"` whenever the sender now matches a
client — even for rows already resolved or ignored, so the transition is not
one-way. -/
theorem c7_amended_status_transitions :
    (∀ (db : Contacts.Db) (uid : String) (body : Contacts.UnknownResolve)
        (now fid : String) (db' : Contacts.Db),
      Contacts.resolveUnknown db uid body now fid = .ok db' →
      ∀ r' ∈ db'.unknownSenders, r'.status = "resolved" ∨
        r'.status = "ignored" ∨
        ∃ r ∈ db.unknownSenders, r.id = r'.id ∧ r'.status = r.status) ∧
    (∀ (db : Contacts.Db) (body : Contacts.UnknownCreate) (now fid : String)
        (out : Contacts.Db × String × Option String),
      Contacts.createUnknownSender db body now fid = .ok out →
      Contacts.autoMatchClient db (Py.lower (Py.strip body.email)) = none →
      ∀ r' ∈ out.1.unknownSenders, r'.status = "pending" ∨
        ∃ r ∈ db.unknownSenders, r.id = r'.id ∧ r'.status = r.status) ∧
    (∀ (db : Contacts.Db) (body : Contacts.UnknownCreate) (now fid : String)
        (db' : Contacts.Db) (uid cid : String),
      Contacts.createUnknownSender db body now fid = .ok (db', uid, some cid) →
      ∀ r' ∈ db'.unknownSenders, r'.id = uid → r'.status = "matched") := by
  refine ⟨?_, ?_, ?_⟩
  · intro db uid body now fid db' hok r' hr'
    unfold Contacts.resolveUnknown at hok
    cases hfind : db.unknownSenders.find? (fun r => r.id = uid) with
    | none => rw [hfind] at hok; exact absurd hok (by simp)
    | some unk =>
      rw [hfind] at hok
      by_cases hig : body.action = "ignore"
      · simp only [hig, if_true, Except.ok.injEq] at hok
        subst hok
        simp only [List.mem_map] at hr'
        rcases hr' with ⟨r0, hr0, hr0e⟩
        by_cases hid : r0.id = uid
        · rw [← hr0e]; simp [hid]
        · rw [← hr0e]
          simp only [hid, if_false]
          right; right; exact ⟨r0, hr0, rfl, rfl⟩
      · cases hcid : body.clientId with
        | none =>
          simp only [hig, if_false, hcid] at hok
          exact absurd hok (by simp)
        | some cid =>
          simp only [hig, if_false, hcid] at hok
          by_cases hce : cid = ""
          · simp only [hce, if_true] at hok
            exact absurd hok (by simp)
          · simp only [hce, if_false] at hok
            have hfin : ∀ (dbm : Contacts.Db),
                dbm.unknownSenders = db.unknownSenders →
                db' = Contacts.finishResolve dbm uid cid now →
                r'.status = "resolved" ∨ r'.status = "ignored" ∨
                  ∃ r ∈ db.unknownSenders, r.id = r'.id ∧
                    r'.status = r.status := by
              intro dbm hsame hdb
              rw [hdb] at hr'
              unfold Contacts.finishResolve at hr'
              simp only [List.mem_map, hsame] at hr'
              rcases hr' with ⟨r0, hr0, hr0e⟩
              by_cases hid : r0.id = uid
              · rw [← hr0e]; simp [hid]
              · rw [← hr0e]
                simp only [hid, if_false]
                right; right; exact ⟨r0, hr0, rfl, rfl⟩
            by_cases hae : body.action = "approve_email"
            · simp only [hae, if_true, Except.ok.injEq] at hok
              exact hfin
                (Contacts.insertOrIgnoreEmail db fid cid
                  (Py.strip (Py.lower unk.email)) now)
                (insertOrIgnoreEmail_unknowns db fid cid
                  (Py.strip (Py.lower unk.email)) now)
                hok.symm
            · by_cases had : body.action = "approve_domain"
              · simp only [had, String.reduceEq, if_false, if_true,
                  Except.ok.injEq] at hok
                exact hfin
                  (Contacts.insertOrIgnoreDomain db fid cid
                    ((Py.splitChar '@'
                      (Py.strip (Py.lower unk.email))).getLastD
                      (Py.strip (Py.lower unk.email))) body.wildcard now)
                  (insertOrIgnoreDomain_unknowns db fid cid _ body.wildcard now)
                  hok.symm
              · simp only [hae, if_false, had] at hok
                exact absurd hok (by simp)

  · intro db body now fid out hok hmatch r' hr'
    unfold Contacts.createUnknownSender at hok
    by_cases hemp : Py.lower (Py.strip body.email) = "" ∨
        Py.strip body.messageId = ""
    · rw [if_pos hemp] at hok
      exact absurd hok (by simp)
    · rw [if_neg hemp] at hok
      cases hfind : db.unknownSenders.find? (fun r =>
          r.email = Py.lower (Py.strip body.email) ∧
          r.messageId = Py.strip body.messageId) with
      | some row =>
        have hm2 : Contacts.autoMatchClient
            { db with unknownSenders := db.unknownSenders.map (fun r =>
                if r.id = row.id then
                  { r with hits := r.hits + 1, lastSeen := now } else r) }
            (Py.lower (Py.strip body.email)) = none := hmatch
        simp only [Bool.decide_and] at hfind
        simp only [Bool.decide_and, hfind, hm2, Except.ok.injEq] at hok
        rw [← hok] at hr'
        simp only [List.mem_map] at hr'
        rcases hr' with ⟨r0, hr0, hr0e⟩
        by_cases hid : r0.id = row.id
        · rw [← hr0e]
          simp only [hid, if_true]
          right; exact ⟨r0, hr0, hid, rfl⟩
        · rw [← hr0e]
          simp only [hid, if_false]
          right; exact ⟨r0, hr0, rfl, rfl⟩
      | none =>
        have hm2 : Contacts.autoMatchClient
            { db with unknownSenders := db.unknownSenders ++
                [{ id := fid, email := Py.lower (Py.strip body.email),
                   domain := "", messageId := Py.strip body.messageId,
                   lastMessageId := Py.strip body.messageId,
                   subject := body.subject, firstSeen := now, lastSeen := now,
                   hits := 1, status := "pending", clientId := none,
                   resolved := false }] }
            (Py.lower (Py.strip body.email)) = none := hmatch
        simp only [Bool.decide_and] at hfind
        simp only [Bool.decide_and, hfind, hm2, Except.ok.injEq] at hok
        rw [← hok] at hr'
        simp only [List.mem_append, List.mem_singleton] at hr'
        rcases hr' with hr0 | hr0
        · right; exact ⟨r', hr0, rfl, rfl⟩
        · left; rw [hr0]
  · intro db body now fid db' uid cid hok r' hr' hid
    unfold Contacts.createUnknownSender at hok
    by_cases hemp : Py.lower (Py.strip body.email) = "" ∨
        Py.strip body.messageId = ""
    · rw [if_pos hemp] at hok
      exact absurd hok (by simp)
    · rw [if_neg hemp] at hok
      cases hfind : db.unknownSenders.find? (fun r =>
          r.email = Py.lower (Py.strip body.email) ∧
          r.messageId = Py.strip body.messageId) with
      | some row =>
        simp only [Bool.decide_and] at hfind
        simp only [Bool.decide_and, hfind, Except.ok.injEq, Prod.mk.injEq] at hok
        rcases hok with ⟨hdb, huid, hcm⟩
        rw [← hdb] at hr'
        simp only [hcm] at hr'
        rw [← huid] at hid
        exact matchedMap_status _ _ _ _ hr' hid
      | none =>
        simp only [Bool.decide_and] at hfind
        simp only [Bool.decide_and, hfind, Except.ok.injEq, Prod.mk.injEq] at hok
        rcases hok with ⟨hdb, huid, hcm⟩
        rw [← hdb] at hr'
        simp only [hcm] at hr'
        rw [← huid] at hid
        exact matchedMap_status _ _ _ _ hr' hid

/-- Witness for the amended C7: resolving a pending row with `ignore` leaves
it in an allowed terminal status. -/
theorem c7_amended_witness :
    (⟨"u2", "bob@y.com", "", "m2", "m2", "Yo", "t0", "t0", 1, "ignored", none,
      true⟩ : Contacts.UnknownSenderRow).status = "resolved" ∨
    (⟨"u2", "bob@y.com", "", "m2", "m2", "Yo", "t0", "t0", 1, "ignored", none,
      true⟩ : Contacts.UnknownSenderRow).status = "ignored" ∨
    ∃ r ∈ (⟨[], [], [],
      [⟨"u2", "bob@y.com", "", "m2", "m2", "Yo", "t0", "t0", 1, "pending",
        none, false⟩], 1, "t0"⟩ : Contacts.Db).unknownSenders,
      r.id = (⟨"u2", "bob@y.com", "", "m2", "m2", "Yo", "t0", "t0", 1,
        "ignored", none, true⟩ : Contacts.UnknownSenderRow).id ∧
      (⟨"u2", "bob@y.com", "", "m2", "m2", "Yo", "t0", "t0", 1, "ignored",
        none, true⟩ : Contacts.UnknownSenderRow).status = r.status :=
  c7_amended_status_transitions.1
    ⟨[], [], [],
     [⟨"u2", "bob@y.com", "", "m2", "m2", "Yo", "t0", "t0", 1, "pending",
       none, false⟩], 1, "t0"⟩
    "u2" ⟨"ignore", none, false⟩ "t1" "g9"
    ⟨[], [], [],
     [⟨"u2", "bob@y.com", "", "m2", "m2", "Yo", "t0", "t0", 1, "ignored",
       none, true⟩], 1, "t0"⟩
    rfl
    ⟨"u2", "bob@y.com", "", "m2", "m2", "Yo", "t0", "t0", 1, "ignored", none,
     true⟩
    (by decide)


/-! ## C5 helpers: counting emitted blocks -/

theorem allocate_scheduledCounts (st : Sched.St) (bt : Sched.BlockType)
    (iv : Sched.Interval) (m : Int) (st' : Sched.St)
    (ev? : Option Sched.Event) (r? : Option Sched.Interval)
    (h : Sched.allocate st bt iv m = (st', ev?, r?)) :
    (ev? = none → ∀ b, st'.scheduledCounts b = st.scheduledCounts b) ∧
    (∀ ev, ev? = some ev → ev.blockType = bt ∧
      ∀ b, st'.scheduledCounts b =
        (if b = bt then st.scheduledCounts b + 1 else st.scheduledCounts b)) := by
  simp only [Sched.allocate] at h
  split at h
  · simp only [Prod.mk.injEq] at h
    rcases h with ⟨h1, h2, _⟩
    subst h1
    refine ⟨fun _ b => rfl, fun ev hev => ?_⟩
    rw [← h2] at hev
    exact absurd hev (by simp)
  · split at h
    · simp only [Prod.mk.injEq] at h
      rcases h with ⟨h1, h2, _⟩
      subst h1
      refine ⟨fun _ b => rfl, fun ev hev => ?_⟩
      rw [← h2] at hev
      exact absurd hev (by simp)
    · simp only [Prod.mk.injEq] at h
      rcases h with ⟨h1, h2, _⟩
      subst h1
      constructor
      · intro hnone
        rw [← h2] at hnone
        exact absurd hnone (by simp)
      · intro ev hev
        rw [← h2] at hev
        injection hev with hev
        constructor
        · rw [← hev]
        · intro b
          show Sched.updateB st.scheduledCounts bt
            (st.scheduledCounts bt + 1) b = _
          unfold Sched.updateB
          by_cases hb : b = bt
          · simp [hb]
          · simp [hb]

theorem tryPrefs_spec (cfg : Sched.SchedulerConfig) (sw : Sched.BlockType → Int)
    (day : Int) (cursor : Sched.Interval) :
    ∀ (prefs : List Sched.BlockType) (st st' : Sched.St)
      (res : Option (Sched.Event × Option Sched.Interval)),
      Sched.tryPrefs cfg sw day cursor prefs st = (st', res) →
      (res = none → ∀ b, st'.scheduledCounts b = st.scheduledCounts b) ∧
      (∀ ev r, res = some (ev, r) →
        (∀ b, st'.scheduledCounts b =
          (if b = ev.blockType then st.scheduledCounts b + 1
           else st.scheduledCounts b)) ∧
        (st.scheduledCounts ev.blockType : Int) < sw ev.blockType) := by
  intro prefs
  induction prefs with
  | nil =>
    intro st st' res h
    simp only [Sched.tryPrefs, Prod.mk.injEq] at h
    rcases h with ⟨h1, h2⟩
    subst h1
    exact ⟨fun _ b => rfl, fun ev r hres => absurd (h2.trans hres) (by simp)⟩
  | cons bt rest ih =>
    intro st st' res h
    simp only [Sched.tryPrefs] at h
    split at h
    · exact ih st st' res h
    · split at h
      · exact ih st st' res h
      · split at h
        · exact ih st st' res h
        · split at h
          · exact ih st st' res h
          · rename_i hcount _ _ _
            split at h
            · rename_i st2 ev rest2 halloc
              simp only [Prod.mk.injEq] at h
              rcases h with ⟨h1, h2⟩
              subst h1
              have ha := allocate_scheduledCounts st bt cursor _ st2
                (some ev) rest2 halloc
              have hbt := (ha.2 ev rfl).1
              have hcnt := (ha.2 ev rfl).2
              refine ⟨fun hres => absurd (h2.trans hres) (by simp), ?_⟩
              intro ev' r' hres
              rw [← h2] at hres
              injection hres with hres
              injection hres with hres1 hres2
              subst hres1
              constructor
              · intro b
                rw [hcnt b, hbt]
              · rw [hbt]
                omega
            · rename_i st2 hnone halloc
              have ha := allocate_scheduledCounts st bt cursor _ st2
                none _ halloc
              have hsame := ha.1 rfl
              have hrec := ih st2 st' res h
              constructor
              · intro hres b
                rw [hrec.1 hres b, hsame b]
              · intro ev r hres
                have h2 := hrec.2 ev r hres
                refine ⟨fun b => ?_, ?_⟩
                · rw [h2.1 b, hsame b]
                · have h3 := h2.2
                  rw [hsame ev.blockType] at h3
                  exact h3


theorem countEvs_cons (bt : Sched.BlockType) (ev : Sched.Event)
    (evs : List Sched.Event) :
    Sched.countEvs bt (ev :: evs) =
      (if ev.blockType = bt then 1 else 0) + Sched.countEvs bt evs := by
  unfold Sched.countEvs
  rw [List.filter_cons]
  by_cases hbt : ev.blockType = bt
  · simp [hbt, Nat.add_comm]
  · simp [hbt]

theorem countEvs_append (bt : Sched.BlockType) (l1 l2 : List Sched.Event) :
    Sched.countEvs bt (l1 ++ l2) =
      Sched.countEvs bt l1 + Sched.countEvs bt l2 := by
  unfold Sched.countEvs
  simp [List.filter_append]

theorem countEvs_nil (bt : Sched.BlockType) : Sched.countEvs bt [] = 0 := rfl

theorem workLoop_spec (cfg : Sched.SchedulerConfig) (sw : Sched.BlockType → Int)
    (day : Int) :
    ∀ (fuel : Nat) (st : Sched.St) (cur : Option Sched.Interval)
      (st' : Sched.St) (evs : List Sched.Event),
      Sched.workLoop cfg sw day fuel st cur = (st', evs) →
      (∀ b, st'.scheduledCounts b = st.scheduledCounts b +
        Sched.countEvs b evs) ∧
      (Sched.countsBounded sw st → Sched.countsBounded sw st') := by
  intro fuel
  induction fuel with
  | zero =>
    intro st cur st' evs h
    cases cur with
    | none =>
      simp only [Sched.workLoop, Prod.mk.injEq] at h
      rcases h with ⟨h1, h2⟩
      subst h1
      rw [← h2]
      exact ⟨fun b => by simp [countEvs_nil], fun hb => hb⟩
    | some c =>
      simp only [Sched.workLoop, Prod.mk.injEq] at h
      rcases h with ⟨h1, h2⟩
      subst h1
      rw [← h2]
      exact ⟨fun b => by simp [countEvs_nil], fun hb => hb⟩
  | succ fuel ih =>
    intro st cur st' evs h
    cases cur with
    | none =>
      simp only [Sched.workLoop, Prod.mk.injEq] at h
      rcases h with ⟨h1, h2⟩
      subst h1
      rw [← h2]
      exact ⟨fun b => by simp [countEvs_nil], fun hb => hb⟩
    | some cursor =>
      simp only [Sched.workLoop] at h
      split at h
      · simp only [Prod.mk.injEq] at h
        rcases h with ⟨h1, h2⟩
        subst h1
        rw [← h2]
        exact ⟨fun b => by simp [countEvs_nil], fun hb => hb⟩
      · split at h
        · rename_i st2 ev rest2 htp
          have htps := tryPrefs_spec cfg sw day cursor _ st st2 _ htp
          have hsome := htps.2 ev rest2 rfl
          cases hrec : Sched.workLoop cfg sw day fuel st2 rest2 with
          | mk st3 evs3 =>
            rw [hrec] at h
            simp only [Prod.mk.injEq] at h
            rcases h with ⟨h1, h2⟩
            subst h1
            rw [← h2]
            have hr := ih st2 rest2 st3 evs3 hrec
            constructor
            · intro b
              rw [countEvs_cons, hr.1 b, hsome.1 b]
              by_cases hbb : b = ev.blockType
              · subst hbb
                simp only [eq_self_iff_true, if_true]
                omega
              · have hbb2 : ¬ ev.blockType = b := fun hc => hbb hc.symm
                simp only [hbb, if_false, hbb2]
                omega
            · intro hbnd
              have hbnd2 : Sched.countsBounded sw st2 := by
                intro b2 hb2
                rw [hsome.1 b2]
                by_cases hb2e : b2 = ev.blockType
                · subst hb2e
                  rw [if_pos rfl]
                  have h4 := hsome.2
                  refine le_trans ?_ (le_max_left _ 0)
                  push_cast
                  omega
                · simp only [hb2e, if_false]
                  exact hbnd b2 hb2
              exact hr.2 hbnd2
        · rename_i st2 htp
          have htps := tryPrefs_spec cfg sw day cursor _ st st2 _ htp
          have hsame := htps.1 rfl
          split at h
          · split at h
            · split at h
              · rename_i st3 ev rest3 halloc
                have ha := allocate_scheduledCounts st2 _ cursor _ st3
                  (some ev) rest3 halloc
                have hbt := (ha.2 ev rfl).1
                have hcnt := (ha.2 ev rfl).2
                cases hrec : Sched.workLoop cfg sw day fuel st3 rest3 with
                | mk st4 evs4 =>
                  rw [hrec] at h
                  simp only [Prod.mk.injEq] at h
                  rcases h with ⟨h1, h2⟩
                  subst h1
                  rw [← h2]
                  have hr := ih st3 rest3 st4 evs4 hrec
                  constructor
                  · intro b
                    rw [countEvs_cons, hr.1 b, hcnt b, hsame b, hbt]
                    by_cases hbb : b = Sched.BlockType.admin_processing
                    · subst hbb
                      simp only [eq_self_iff_true, if_true]
                      omega
                    · have hbb2 : ¬ Sched.BlockType.admin_processing = b :=
                        fun hc => hbb hc.symm
                      simp only [hbb, if_false, hbb2]
                      omega
                  · intro hbnd
                    have hbnd3 : Sched.countsBounded sw st3 := by
                      intro b2 hb2
                      rw [hcnt b2]
                      simp only [hb2, if_false]
                      rw [hsame b2]
                      exact hbnd b2 hb2
                    exact hr.2 hbnd3
              · rename_i st3 hnone3 halloc
                simp only [Prod.mk.injEq] at h
                rcases h with ⟨h1, h2⟩
                subst h1
                rw [← h2]
                have ha := allocate_scheduledCounts st2 _ cursor _ st3
                  none _ halloc
                have hsame3 := ha.1 rfl
                constructor
                · intro b
                  rw [hsame3 b, hsame b]
                  simp [countEvs_nil]
                · intro hbnd b hbads
                  rw [hsame3 b, hsame b]
                  exact hbnd b hbads
            · simp only [Prod.mk.injEq] at h
              rcases h with ⟨h1, h2⟩
              subst h1
              rw [← h2]
              exact ⟨fun b => by rw [hsame b]; simp [countEvs_nil],
                fun hbnd b hbads => by rw [hsame b]; exact hbnd b hbads⟩
          · simp only [Prod.mk.injEq] at h
            rcases h with ⟨h1, h2⟩
            subst h1
            rw [← h2]
            exact ⟨fun b => by rw [hsame b]; simp [countEvs_nil],
              fun hbnd b hbads => by rw [hsame b]; exact hbnd b hbads⟩

theorem personalLoop_spec (cfg : Sched.SchedulerConfig)
    (sw : Sched.BlockType → Int) (day : Int) :
    ∀ (fuel : Nat) (st : Sched.St) (cur : Option Sched.Interval)
      (st' : Sched.St) (evs : List Sched.Event),
      Sched.personalLoop cfg sw day fuel st cur = (st', evs) →
      (∀ b, st'.scheduledCounts b = st.scheduledCounts b +
        Sched.countEvs b evs) ∧
      (Sched.countsBounded sw st → Sched.countsBounded sw st') := by
  intro fuel
  induction fuel with
  | zero =>
    intro st cur st' evs h
    cases cur with
    | none =>
      simp only [Sched.personalLoop, Prod.mk.injEq] at h
      rcases h with ⟨h1, h2⟩
      subst h1
      rw [← h2]
      exact ⟨fun b => by simp [countEvs_nil], fun hb => hb⟩
    | some c =>
      simp only [Sched.personalLoop, Prod.mk.injEq] at h
      rcases h with ⟨h1, h2⟩
      subst h1
      rw [← h2]
      exact ⟨fun b => by simp [countEvs_nil], fun hb => hb⟩
  | succ fuel ih =>
    intro st cur st' evs h
    cases cur with
    | none =>
      simp only [Sched.personalLoop, Prod.mk.injEq] at h
      rcases h with ⟨h1, h2⟩
      subst h1
      rw [← h2]
      exact ⟨fun b => by simp [countEvs_nil], fun hb => hb⟩
    | some cursor =>
      simp only [Sched.personalLoop] at h
      split at h
      · simp only [Prod.mk.injEq] at h
        rcases h with ⟨h1, h2⟩
        subst h1
        rw [← h2]
        exact ⟨fun b => by simp [countEvs_nil], fun hb => hb⟩
      · split at h
        · simp only [Prod.mk.injEq] at h
          rcases h with ⟨h1, h2⟩
          subst h1
          rw [← h2]
          exact ⟨fun b => by simp [countEvs_nil], fun hb => hb⟩
        · rename_i hcount
          split at h
          · simp only [Prod.mk.injEq] at h
            rcases h with ⟨h1, h2⟩
            subst h1
            rw [← h2]
            exact ⟨fun b => by simp [countEvs_nil], fun hb => hb⟩
          · split at h
            · simp only [Prod.mk.injEq] at h
              rcases h with ⟨h1, h2⟩
              subst h1
              rw [← h2]
              exact ⟨fun b => by simp [countEvs_nil], fun hb => hb⟩
            · split at h
              · rename_i st2 hnone2 halloc
                simp only [Prod.mk.injEq] at h
                rcases h with ⟨h1, h2⟩
                subst h1
                rw [← h2]
                have ha := allocate_scheduledCounts st _ cursor _ st2
                  none _ halloc
                have hsame := ha.1 rfl
                exact ⟨fun b => by rw [hsame b]; simp [countEvs_nil],
                  fun hbnd b hbads => by rw [hsame b]; exact hbnd b hbads⟩
              · rename_i st2 ev rest2 halloc
                have ha := allocate_scheduledCounts st _ cursor _ st2
                  (some ev) rest2 halloc
                have hbt := (ha.2 ev rfl).1
                have hcnt := (ha.2 ev rfl).2
                cases hrec : Sched.personalLoop cfg sw day fuel st2 rest2 with
                | mk st3 evs3 =>
                  rw [hrec] at h
                  simp only [Prod.mk.injEq] at h
                  rcases h with ⟨h1, h2⟩
                  subst h1
                  rw [← h2]
                  have hr := ih st2 rest2 st3 evs3 hrec
                  constructor
                  · intro b
                    rw [countEvs_cons, hr.1 b, hcnt b, hbt]
                    by_cases hbb : b = Sched.BlockType.personal
                    · subst hbb
                      simp only [eq_self_iff_true, if_true]
                      omega
                    · have hbb2 : ¬ Sched.BlockType.personal = b :=
                        fun hc => hbb hc.symm
                      simp only [hbb, if_false, hbb2]
                      omega
                  · intro hbnd
                    have hbnd2 : Sched.countsBounded sw st2 := by
                      intro b2 hb2
                      rw [hcnt b2]
                      by_cases hb2e : b2 = Sched.BlockType.personal
                      · subst hb2e
                        simp only [eq_self_iff_true, if_true]
                        refine le_trans ?_ (le_max_left _ 0)
                        push_cast
                        simp only [not_le] at hcount
                        omega
                      · simp only [hb2e, if_false]
                        exact hbnd b2 hb2
                    exact hr.2 hbnd2

theorem foldEvents_aux_spec (sw : Sched.BlockType → Int)
    (step : Sched.St → Sched.Interval → Sched.St × List Sched.Event)
    (hstep : ∀ st iv,
      (∀ b, (step st iv).1.scheduledCounts b = st.scheduledCounts b +
        Sched.countEvs b (step st iv).2) ∧
      (Sched.countsBounded sw st → Sched.countsBounded sw (step st iv).1)) :
    ∀ (l : List Sched.Interval) (st : Sched.St) (acc : List Sched.Event),
      (∀ b, (l.foldl (fun (a : Sched.St × List Sched.Event) iv =>
          ((step a.1 iv).1, a.2 ++ (step a.1 iv).2)) (st, acc)).1.scheduledCounts
            b + Sched.countEvs b acc =
        st.scheduledCounts b + Sched.countEvs b
          (l.foldl (fun (a : Sched.St × List Sched.Event) iv =>
            ((step a.1 iv).1, a.2 ++ (step a.1 iv).2)) (st, acc)).2) ∧
      (Sched.countsBounded sw st → Sched.countsBounded sw
        (l.foldl (fun (a : Sched.St × List Sched.Event) iv =>
          ((step a.1 iv).1, a.2 ++ (step a.1 iv).2)) (st, acc)).1) := by
  intro l
  induction l with
  | nil => intro st acc; exact ⟨fun b => rfl, fun hb => hb⟩
  | cons iv t ih =>
    intro st acc
    simp only [List.foldl_cons]
    have hs := hstep st iv
    have hi := ih (step st iv).1 (acc ++ (step st iv).2)
    constructor
    · intro b
      have h1 := hi.1 b
      rw [countEvs_append] at h1
      rw [hs.1 b] at h1
      omega
    · intro hbnd
      exact hi.2 (hs.2 hbnd)

theorem foldEvents_spec (sw : Sched.BlockType → Int)
    (step : Sched.St → Sched.Interval → Sched.St × List Sched.Event)
    (hstep : ∀ st iv,
      (∀ b, (step st iv).1.scheduledCounts b = st.scheduledCounts b +
        Sched.countEvs b (step st iv).2) ∧
      (Sched.countsBounded sw st → Sched.countsBounded sw (step st iv).1))
    (l : List Sched.Interval) (st : Sched.St) :
    (∀ b, (Sched.foldEvents step l st).1.scheduledCounts b =
      st.scheduledCounts b +
        Sched.countEvs b (Sched.foldEvents step l st).2) ∧
    (Sched.countsBounded sw st →
      Sched.countsBounded sw (Sched.foldEvents step l st).1) := by
  have h := foldEvents_aux_spec sw step hstep l st []
  unfold Sched.foldEvents
  constructor
  · intro b
    have h1 := h.1 b
    rw [countEvs_nil] at h1
    omega
  · exact h.2

theorem planOneDay_spec (cfg : Sched.SchedulerConfig)
    (sw : Sched.BlockType → Int) (fetch : Int → List Sched.Interval)
    (day : Int) (st : Sched.St) :
    (∀ b, (Sched.planOneDay cfg sw fetch day st).2.scheduledCounts b =
      st.scheduledCounts b +
        Sched.countEvs b (Sched.planOneDay cfg sw fetch day st).1.blocks) ∧
    (Sched.countsBounded sw st →
      Sched.countsBounded sw (Sched.planOneDay cfg sw fetch day st).2) := by
  have hWs : ∀ (a : Sched.St) (iv : Sched.Interval),
      (∀ b, (Sched.workLoop cfg sw day (iv.minutes.toNat + 1) a
          (some iv)).1.scheduledCounts b = a.scheduledCounts b +
        Sched.countEvs b (Sched.workLoop cfg sw day (iv.minutes.toNat + 1) a
          (some iv)).2) ∧
      (Sched.countsBounded sw a → Sched.countsBounded sw
        (Sched.workLoop cfg sw day (iv.minutes.toNat + 1) a (some iv)).1) :=
    fun a iv => workLoop_spec cfg sw day (iv.minutes.toNat + 1) a (some iv)
      _ _ rfl
  have hPs : ∀ (a : Sched.St) (iv : Sched.Interval),
      (∀ b, (Sched.personalLoop cfg sw day (iv.minutes.toNat + 1) a
          (some iv)).1.scheduledCounts b = a.scheduledCounts b +
        Sched.countEvs b (Sched.personalLoop cfg sw day
          (iv.minutes.toNat + 1) a (some iv)).2) ∧
      (Sched.countsBounded sw a → Sched.countsBounded sw
        (Sched.personalLoop cfg sw day (iv.minutes.toNat + 1) a
          (some iv)).1) :=
    fun a iv => personalLoop_spec cfg sw day (iv.minutes.toNat + 1) a
      (some iv) _ _ rfl
  unfold Sched.planOneDay
  simp only []
  set st0 : Sched.St := { st with capToday := fun _ => 0 } with hst0
  have hst0c : ∀ b, st0.scheduledCounts b = st.scheduledCounts b :=
    fun b => rfl
  set wl := (if Sched.weekday day < 5 then
      Sched.sortStable Sched.intervalLT
        (Sched.subtractBusy
          ⟨day * 1440 + cfg.coreStart, day * 1440 + cfg.coreEnd⟩ (fetch day))
    else []) with hwl
  have hW2 := foldEvents_spec sw
    (fun a iv => Sched.workLoop cfg sw day (iv.minutes.toNat + 1) a (some iv))
    hWs wl st0
  set stepW := Sched.foldEvents
    (fun a iv => Sched.workLoop cfg sw day (iv.minutes.toNat + 1) a (some iv))
    wl st0 with hstepW
  by_cases hcond : cfg.personalWindows (Sched.weekday day) ≠ [] ∧
      stepW.1.demand.minutesByBlock Sched.BlockType.personal > 0
  · rw [if_pos hcond]
    set pl := Sched.sortStable Sched.intervalLT
      ((cfg.personalWindows (Sched.weekday day)).foldl
        (fun acc se =>
          acc ++ Sched.subtractBusy
            ⟨day * 1440 + se.1, day * 1440 + se.2⟩ (fetch day)) []) with hpl
    have hP2 := foldEvents_spec sw
      (fun a iv => Sched.personalLoop cfg sw day (iv.minutes.toNat + 1) a
        (some iv))
      hPs pl stepW.1
    constructor
    · intro b
      have h1 := hP2.1 b
      have h2 := hW2.1 b
      rw [hst0c b] at h2
      rw [countEvs_append]
      omega
    · intro hbnd
      refine hP2.2 (hW2.2 ?_)
      intro b2 hb2
      rw [hst0c b2]
      exact hbnd b2 hb2
  · rw [if_neg hcond]
    dsimp only
    constructor
    · intro b
      have h2 := hW2.1 b
      rw [hst0c b] at h2
      rw [countEvs_append, countEvs_nil]
      omega
    · intro hbnd
      refine hW2.2 ?_
      intro b2 hb2
      rw [hst0c b2]
      exact hbnd b2 hb2

theorem planDays_spec (cfg : Sched.SchedulerConfig)
    (sw : Sched.BlockType → Int) (fetch : Int → List Sched.Interval) :
    ∀ (n : Nat) (day : Int) (st : Sched.St),
      (∀ b, (Sched.planDays cfg sw fetch n day st).2.scheduledCounts b =
        st.scheduledCounts b +
          (((Sched.planDays cfg sw fetch n day st).1.map
            (fun d => Sched.countEvs b d.blocks)).sum)) ∧
      (Sched.countsBounded sw st →
        Sched.countsBounded sw (Sched.planDays cfg sw fetch n day st).2) := by
  intro n
  induction n with
  | zero =>
    intro day st
    exact ⟨fun b => by simp [Sched.planDays], fun hb => hb⟩
  | succ n ih =>
    intro day st
    simp only [Sched.planDays]
    have h1 := planOneDay_spec cfg sw fetch day st
    have h2 := ih (day + 1) (Sched.planOneDay cfg sw fetch day st).2
    constructor
    · intro b
      simp only [List.map_cons, List.sum_cons]
      rw [h2.1 b, h1.1 b]
      omega
    · intro hbnd
      exact h2.2 (h1.2 hbnd)

/-- C5 counterexample: with `weekly_weights[client_deep_work] = 2` and a one-day
window, the claimed per-bucket bound is `ceil(2 * 1 / 7) = 1`, but the planner
emits 2 client blocks: the weekly scaling clamps the window at one week
(`max(1, N/7.0)`), so short windows keep the full weekly target. -/
theorem c5_counterexample :
    (Sched.planWeek 0 1 c5Cfg (fun _ => []) c5Tasks).countBucket
        Sched.BlockType.client_deep_work = 2 ∧
    Int.fdiv (c5Cfg.weeklyWeights Sched.BlockType.client_deep_work *
      (1 : Int) + 6) 7 = 1 :=
  ⟨rfl, rfl⟩

/-- C5 (amended): for every bucket except `admin_processing` (which the gap
filler places without consulting the weekly target) with a nonnegative weekly
weight, the number of blocks the planner emits for that bucket over an N-day
window is at most `ceil(weekly_weights[b] * max(N, 7) / 7)`: the scaling
factor is clamped below at one full week, so the bound for short windows is
the full weekly weight, not `ceil(weekly * N / 7)`. -/
theorem c5_amended_weekly_bound (startDate : Int) (numDays : Nat)
    (cfg : Sched.SchedulerConfig) (fetch : Int → List Sched.Interval)
    (grouped : Sched.BlockType → List Sched.Task)
    (bt : Sched.BlockType) (hb : bt ≠ Sched.BlockType.admin_processing)
    (hw : 0 ≤ cfg.weeklyWeights bt) :
    ((Sched.planWeek startDate numDays cfg fetch grouped).countBucket bt : Int)
      ≤ Int.fdiv (cfg.weeklyWeights bt * max (numDays : Int) 7 + 6) 7 := by
  have h := planDays_spec cfg (Sched.scaledWeeklyOf cfg numDays) fetch numDays
    startDate ⟨Sched.computeDemand grouped, fun _ => 0, fun _ => 0⟩
  have hinit : Sched.countsBounded (Sched.scaledWeeklyOf cfg numDays)
      ⟨Sched.computeDemand grouped, fun _ => 0, fun _ => 0⟩ := by
    intro b _
    exact le_trans (by norm_num) (le_max_right _ _)
  have hbnd := h.2 hinit bt hb
  have heq := h.1 bt
  dsimp only at heq
  rw [Nat.zero_add] at heq
  have hcb : (Sched.planWeek startDate numDays cfg fetch grouped).countBucket
      bt = (List.map (fun d => Sched.countEvs bt d.blocks)
        (Sched.planDays cfg (Sched.scaledWeeklyOf cfg numDays) fetch numDays
          startDate
          ⟨Sched.computeDemand grouped, fun _ => 0, fun _ => 0⟩).1).sum := rfl
  have hnn : 0 ≤ Sched.scaledWeeklyOf cfg numDays bt := by
    refine Int.fdiv_nonneg ?_ (by norm_num)
    have h7 : (0 : Int) ≤ max (numDays : Int) 7 :=
      le_trans (by norm_num) (le_max_right _ _)
    nlinarith [mul_nonneg hw h7]
  rw [hcb, ← heq]
  calc ((Sched.planDays cfg (Sched.scaledWeeklyOf cfg numDays) fetch numDays
        startDate
        ⟨Sched.computeDemand grouped, fun _ => 0,
          fun _ => 0⟩).2.scheduledCounts bt : Int)
      ≤ max (Sched.scaledWeeklyOf cfg numDays bt) 0 := hbnd
    _ = Sched.scaledWeeklyOf cfg numDays bt := max_eq_left hnn
    _ = Int.fdiv (cfg.weeklyWeights bt * max (numDays : Int) 7 + 6) 7 := rfl

/-- Witness for the amended C5 at the concrete one-day scenario. -/
theorem c5_amended_witness :
    Sched.BlockType.client_deep_work ≠ Sched.BlockType.admin_processing ∧
    0 ≤ c5Cfg.weeklyWeights Sched.BlockType.client_deep_work ∧
    ((Sched.planWeek 0 1 c5Cfg (fun _ => []) c5Tasks).countBucket
        Sched.BlockType.client_deep_work : Int) ≤
      Int.fdiv (c5Cfg.weeklyWeights Sched.BlockType.client_deep_work *
        max ((1 : Nat) : Int) 7 + 6) 7 :=
  ⟨by decide, by decide,
   c5_amended_weekly_bound 0 1 c5Cfg (fun _ => []) c5Tasks
     Sched.BlockType.client_deep_work (by decide) (by decide)⟩

/-! ## C10 helpers: emitted blocks avoid the fetched busy intervals -/

theorem mem_insertStable {α : Type} (lt : α → α → Bool) (x y : α) :
    ∀ l : List α, y ∈ Sched.insertStable lt x l ↔ y = x ∨ y ∈ l := by
  intro l
  induction l with
  | nil => simp [Sched.insertStable]
  | cons z zs ih =>
    simp only [Sched.insertStable]
    split
    · simp only [List.mem_cons, ih]
      tauto
    · simp [List.mem_cons]

theorem mem_sortStable {α : Type} (lt : α → α → Bool) :
    ∀ (l : List α) (x : α), x ∈ Sched.sortStable lt l ↔ x ∈ l := by
  intro l
  induction l with
  | nil => intro x; simp [Sched.sortStable]
  | cons z zs ih =>
    intro x
    simp only [Sched.sortStable, mem_insertStable, List.mem_cons, ih]

theorem subIv_trans {a b c : Sched.Interval} (h1 : Sched.subIv a b)
    (h2 : Sched.subIv b c) : Sched.subIv a c := by
  unfold Sched.subIv at h1 h2 ⊢
  exact ⟨le_trans h2.1 h1.1, le_trans h1.2 h2.2⟩

theorem disjIv_of_subIv {q p b : Sched.Interval} (h1 : Sched.subIv q p)
    (h2 : Sched.disjIv p b) : Sched.disjIv q b := by
  unfold Sched.subIv at h1
  unfold Sched.disjIv at h2 ⊢
  rcases h2 with h | h
  · exact Or.inl (le_trans h1.2 h)
  · exact Or.inr (le_trans h h1.1)

theorem mem_subtractPieces (b : Sched.Interval) :
    ∀ (pieces : List Sched.Interval) (q : Sched.Interval),
      q ∈ pieces.foldr
        (fun p acc =>
          if b.stop ≤ p.start ∨ b.start ≥ p.stop then p :: acc
          else
            (if b.start > p.start then
              [({ start := p.start, stop := b.start } : Sched.Interval)]
             else []) ++
            (if b.stop < p.stop then
              [({ start := b.stop, stop := p.stop } : Sched.Interval)]
             else []) ++ acc)
        [] →
      Sched.disjIv q b ∧ ∃ p ∈ pieces, Sched.subIv q p := by
  intro pieces
  induction pieces with
  | nil => intro q hq; simp at hq
  | cons p ps ih =>
    intro q hq
    simp only [List.foldr_cons] at hq
    split at hq
    · rename_i hcond
      rcases List.mem_cons.1 hq with h | h
      · subst h
        refine ⟨?_, q, List.mem_cons_self _ _, ?_⟩
        · unfold Sched.disjIv
          rcases hcond with h | h
          · exact Or.inr h
          · exact Or.inl h
        · unfold Sched.subIv
          exact ⟨le_refl _, le_refl _⟩
      · obtain ⟨hd, pp, hpp, hsub⟩ := ih q h
        exact ⟨hd, pp, List.mem_cons_of_mem _ hpp, hsub⟩
    · rename_i hcond
      push_neg at hcond
      rcases List.mem_append.1 hq with hAB | hacc
      · rcases List.mem_append.1 hAB with hA | hB
        · split at hA
          · have h := List.mem_singleton.1 hA
            subst h
            refine ⟨?_, p, List.mem_cons_self _ _, ?_⟩
            · unfold Sched.disjIv
              exact Or.inl (le_refl _)
            · unfold Sched.subIv
              exact ⟨le_refl _, le_of_lt hcond.2⟩
          · simp at hA
        · split at hB
          · have h := List.mem_singleton.1 hB
            subst h
            refine ⟨?_, p, List.mem_cons_self _ _, ?_⟩
            · unfold Sched.disjIv
              exact Or.inr (le_refl _)
            · unfold Sched.subIv
              exact ⟨le_of_lt hcond.1, le_refl _⟩
          · simp at hB
      · obtain ⟨hd, pp, hpp, hsub⟩ := ih q hacc
        exact ⟨hd, pp, List.mem_cons_of_mem _ hpp, hsub⟩

theorem mem_subtractFold :
    ∀ (l acc : List Sched.Interval) (q : Sched.Interval),
      q ∈ l.foldl
        (fun pieces b =>
          (pieces.foldr
            (fun p acc2 =>
              if b.stop ≤ p.start ∨ b.start ≥ p.stop then p :: acc2
              else
                (if b.start > p.start then
                  [({ start := p.start, stop := b.start } : Sched.Interval)]
                 else []) ++
                (if b.stop < p.stop then
                  [({ start := b.stop, stop := p.stop } : Sched.Interval)]
                 else []) ++ acc2)
            []).filter (fun x => x.stop > x.start))
        acc →
      (∃ p ∈ acc, Sched.subIv q p) ∧ ∀ b ∈ l, Sched.disjIv q b := by
  intro l
  induction l with
  | nil =>
    intro acc q hq
    refine ⟨⟨q, hq, ?_⟩, by simp⟩
    unfold Sched.subIv
    exact ⟨le_refl _, le_refl _⟩
  | cons b bs ih =>
    intro acc q hq
    simp only [List.foldl_cons] at hq
    obtain ⟨⟨p1, hp1, hsub1⟩, hdisj⟩ := ih _ q hq
    obtain ⟨hd, p, hp, hsub⟩ := mem_subtractPieces b acc p1
      (List.mem_of_mem_filter hp1)
    refine ⟨⟨p, hp, subIv_trans hsub1 hsub⟩, ?_⟩
    intro b2 hb2
    rcases List.mem_cons.1 hb2 with h | h
    · subst h
      exact disjIv_of_subIv hsub1 hd
    · exact hdisj b2 h

theorem subtractBusy_disj (free : Sched.Interval)
    (busies : List Sched.Interval) (q : Sched.Interval)
    (hq : q ∈ Sched.subtractBusy free busies) :
    ∀ b ∈ busies, Sched.disjIv q b := by
  unfold Sched.subtractBusy at hq
  have h := mem_subtractFold (Sched.sortStable Sched.intervalLT busies)
    [free] q hq
  intro b hb
  exact h.2 b ((mem_sortStable Sched.intervalLT busies b).2 hb)

theorem drainTasks_ids_of_nonpos (l : List Sched.Task) (remaining : Int)
    (seen ids titles : List String) (h : remaining ≤ 0) :
    (Sched.drainTasks l remaining seen ids titles).2.1 = ids := by
  cases l with
  | nil => rfl
  | cons t rest =>
    simp only [Sched.drainTasks]
    rw [if_pos h]

theorem split_fst (iv : Sched.Interval) (m : Int) :
    (iv.split m).1 = ⟨iv.start, iv.start + min iv.minutes m⟩ := by
  simp only [Sched.Interval.split]
  split <;> rfl

theorem split_fst_minutes (iv : Sched.Interval) (m : Int) :
    (iv.split m).1.minutes = min iv.minutes m := by
  rw [split_fst]
  unfold Sched.Interval.minutes
  dsimp only
  omega

theorem split_snd_some (iv : Sched.Interval) (m : Int) (r : Sched.Interval)
    (h : (iv.split m).2 = some r) :
    r.start = iv.start + min iv.minutes m ∧ r.stop = iv.stop := by
  simp only [Sched.Interval.split] at h
  split at h
  · dsimp only at h
    simp only [Option.some.injEq] at h
    subst h
    exact ⟨rfl, rfl⟩
  · dsimp only at h
    simp at h

theorem allocate_contained (st : Sched.St) (bt : Sched.BlockType)
    (iv : Sched.Interval) (m : Int) (st' : Sched.St) (ev : Sched.Event)
    (r? : Option Sched.Interval)
    (h : Sched.allocate st bt iv m = (st', some ev, r?)) :
    Sched.subIv (Sched.evIv ev) iv ∧ ∀ r, r? = some r → Sched.subIv r iv := by
  simp only [Sched.allocate] at h
  split at h
  · simp only [Prod.mk.injEq] at h
    exact absurd h.2.1.symm (by simp)
  · split at h
    · simp only [Prod.mk.injEq] at h
      exact absurd h.2.1.symm (by simp)
    · rename_i hids
      simp only [Prod.mk.injEq] at h
      obtain ⟨h1, h2, h3⟩ := h
      have hpos : 0 < min iv.minutes m := by
        by_contra hnn2
        push_neg at hnn2
        have hz := drainTasks_ids_of_nonpos
          (Sched.sortStable Sched.taskLT (st.demand.tasksByBlock bt))
          ((iv.split m).1.minutes) [] [] []
          (by rw [split_fst_minutes]; exact hnn2)
        exact hids hz
      injection h2 with h2
      constructor
      · rw [← h2]
        unfold Sched.evIv
        dsimp only
        rw [split_fst]
        unfold Sched.subIv Sched.Interval.minutes at *
        dsimp only
        omega
      · intro r hr
        rw [← h3] at hr
        obtain ⟨hrs, hre⟩ := split_snd_some iv m r hr
        unfold Sched.subIv Sched.Interval.minutes at *
        omega

theorem tryPrefs_contained (cfg : Sched.SchedulerConfig)
    (sw : Sched.BlockType → Int) (day : Int) (cursor : Sched.Interval) :
    ∀ (prefs : List Sched.BlockType) (st st' : Sched.St) (ev : Sched.Event)
      (r? : Option Sched.Interval),
      Sched.tryPrefs cfg sw day cursor prefs st = (st', some (ev, r?)) →
      Sched.subIv (Sched.evIv ev) cursor ∧
        ∀ r, r? = some r → Sched.subIv r cursor := by
  intro prefs
  induction prefs with
  | nil =>
    intro st st' ev r? h
    simp only [Sched.tryPrefs, Prod.mk.injEq] at h
    exact absurd h.2.symm (by simp)
  | cons bt rest ih =>
    intro st st' ev r? h
    simp only [Sched.tryPrefs] at h
    split at h
    · exact ih st st' ev r? h
    · split at h
      · exact ih st st' ev r? h
      · split at h
        · exact ih st st' ev r? h
        · split at h
          · exact ih st st' ev r? h
          · split at h
            · rename_i st2 ev2 rest2 halloc
              simp only [Prod.mk.injEq] at h
              obtain ⟨h1, h2⟩ := h
              injection h2 with h2
              rw [Prod.mk.injEq] at h2
              obtain ⟨h2a, h2b⟩ := h2
              rw [← h2a, ← h2b]
              exact allocate_contained st bt cursor _ st2 ev2 rest2 halloc
            · rename_i st2 hnone halloc
              exact ih st2 st' ev r? h

theorem workLoop_contained (cfg : Sched.SchedulerConfig)
    (sw : Sched.BlockType → Int) (day : Int) :
    ∀ (fuel : Nat) (st : Sched.St) (c : Sched.Interval) (st' : Sched.St)
      (evs : List Sched.Event),
      Sched.workLoop cfg sw day fuel st (some c) = (st', evs) →
      ∀ ev ∈ evs, Sched.subIv (Sched.evIv ev) c := by
  intro fuel
  induction fuel with
  | zero =>
    intro st c st' evs h ev hev
    simp only [Sched.workLoop, Prod.mk.injEq] at h
    rw [← h.2] at hev
    simp at hev
  | succ fuel ih =>
    intro st c st' evs h ev hev
    simp only [Sched.workLoop] at h
    split at h
    · simp only [Prod.mk.injEq] at h
      rw [← h.2] at hev
      simp at hev
    · split at h
      · rename_i st2 ev2 rest2 htp
        have htc := tryPrefs_contained cfg sw day c _ st st2 ev2 rest2 htp
        cases hrec : Sched.workLoop cfg sw day fuel st2 rest2 with
        | mk st3 evs3 =>
          rw [hrec] at h
          simp only [Prod.mk.injEq] at h
          rw [← h.2] at hev
          rcases List.mem_cons.1 hev with he | he
          · subst he
            exact htc.1
          · cases rest2 with
            | none =>
              simp only [Sched.workLoop, Prod.mk.injEq] at hrec
              rw [← hrec.2] at he
              simp at he
            | some r =>
              exact subIv_trans (ih st2 r st3 evs3 hrec ev he)
                (htc.2 r rfl)
      · rename_i st2 htp
        split at h
        · split at h
          · split at h
            · rename_i st3 ev3 rest3 halloc
              have hac := allocate_contained st2 Sched.BlockType.admin_processing
                c _ st3 ev3 rest3 halloc
              cases hrec : Sched.workLoop cfg sw day fuel st3 rest3 with
              | mk st4 evs4 =>
                rw [hrec] at h
                simp only [Prod.mk.injEq] at h
                rw [← h.2] at hev
                rcases List.mem_cons.1 hev with he | he
                · subst he
                  exact hac.1
                · cases rest3 with
                  | none =>
                    simp only [Sched.workLoop, Prod.mk.injEq] at hrec
                    rw [← hrec.2] at he
                    simp at he
                  | some r =>
                    exact subIv_trans (ih st3 r st4 evs4 hrec ev he)
                      (hac.2 r rfl)
            · simp only [Prod.mk.injEq] at h
              rw [← h.2] at hev
              simp at hev
          · simp only [Prod.mk.injEq] at h
            rw [← h.2] at hev
            simp at hev
        · simp only [Prod.mk.injEq] at h
          rw [← h.2] at hev
          simp at hev

theorem personalLoop_contained (cfg : Sched.SchedulerConfig)
    (sw : Sched.BlockType → Int) (day : Int) :
    ∀ (fuel : Nat) (st : Sched.St) (c : Sched.Interval) (st' : Sched.St)
      (evs : List Sched.Event),
      Sched.personalLoop cfg sw day fuel st (some c) = (st', evs) →
      ∀ ev ∈ evs, Sched.subIv (Sched.evIv ev) c := by
  intro fuel
  induction fuel with
  | zero =>
    intro st c st' evs h ev hev
    simp only [Sched.personalLoop, Prod.mk.injEq] at h
    rw [← h.2] at hev
    simp at hev
  | succ fuel ih =>
    intro st c st' evs h ev hev
    simp only [Sched.personalLoop] at h
    split at h
    · simp only [Prod.mk.injEq] at h
      rw [← h.2] at hev
      simp at hev
    · split at h
      · simp only [Prod.mk.injEq] at h
        rw [← h.2] at hev
        simp at hev
      · split at h
        · simp only [Prod.mk.injEq] at h
          rw [← h.2] at hev
          simp at hev
        · split at h
          · simp only [Prod.mk.injEq] at h
            rw [← h.2] at hev
            simp at hev
          · split at h
            · simp only [Prod.mk.injEq] at h
              rw [← h.2] at hev
              simp at hev
            · rename_i st2 ev2 rest2 halloc
              have hac := allocate_contained st Sched.BlockType.personal
                c _ st2 ev2 rest2 halloc
              cases hrec : Sched.personalLoop cfg sw day fuel st2 rest2 with
              | mk st3 evs3 =>
                rw [hrec] at h
                simp only [Prod.mk.injEq] at h
                rw [← h.2] at hev
                rcases List.mem_cons.1 hev with he | he
                · subst he
                  exact hac.1
                · cases rest2 with
                  | none =>
                    simp only [Sched.personalLoop, Prod.mk.injEq] at hrec
                    rw [← hrec.2] at he
                    simp at he
                  | some r =>
                    exact subIv_trans (ih st2 r st3 evs3 hrec ev he)
                      (hac.2 r rfl)

theorem foldEvents_contained_aux
    (step : Sched.St → Sched.Interval → Sched.St × List Sched.Event)
    (hstep : ∀ a iv ev, ev ∈ (step a iv).2 →
      Sched.subIv (Sched.evIv ev) iv) :
    ∀ (l : List Sched.Interval) (st : Sched.St) (acc : List Sched.Event)
      (ev : Sched.Event),
      ev ∈ (l.foldl (fun (a : Sched.St × List Sched.Event) iv =>
        ((step a.1 iv).1, a.2 ++ (step a.1 iv).2)) (st, acc)).2 →
      ev ∈ acc ∨ ∃ iv ∈ l, Sched.subIv (Sched.evIv ev) iv := by
  intro l
  induction l with
  | nil => intro st acc ev hev; exact Or.inl hev
  | cons iv t ih =>
    intro st acc ev hev
    simp only [List.foldl_cons] at hev
    rcases ih (step st iv).1 (acc ++ (step st iv).2) ev hev with h | ⟨iv2, hiv2, hsub⟩
    · rcases List.mem_append.1 h with h | h
      · exact Or.inl h
      · exact Or.inr ⟨iv, List.mem_cons_self _ _, hstep st iv ev h⟩
    · exact Or.inr ⟨iv2, List.mem_cons_of_mem _ hiv2, hsub⟩

theorem foldEvents_contained
    (step : Sched.St → Sched.Interval → Sched.St × List Sched.Event)
    (hstep : ∀ a iv ev, ev ∈ (step a iv).2 →
      Sched.subIv (Sched.evIv ev) iv)
    (l : List Sched.Interval) (st : Sched.St) (ev : Sched.Event)
    (hev : ev ∈ (Sched.foldEvents step l st).2) :
    ∃ iv ∈ l, Sched.subIv (Sched.evIv ev) iv := by
  unfold Sched.foldEvents at hev
  rcases foldEvents_contained_aux step hstep l st [] ev hev with h | h
  · simp at h
  · exact h

theorem mem_foldl_append {α β : Type} (f : List α → β → List α)
    (g : β → List α) (hf : ∀ a se, f a se = a ++ g se) :
    ∀ (l : List β) (acc : List α) (x : α), x ∈ l.foldl f acc →
      x ∈ acc ∨ ∃ se ∈ l, x ∈ g se := by
  intro l
  induction l with
  | nil => intro acc x hx; exact Or.inl hx
  | cons se t ih =>
    intro acc x hx
    simp only [List.foldl_cons] at hx
    rcases ih (f acc se) x hx with h | ⟨se2, hse2, hg⟩
    · rw [hf acc se] at h
      rcases List.mem_append.1 h with h | h
      · exact Or.inl h
      · exact Or.inr ⟨se, List.mem_cons_self _ _, h⟩
    · exact Or.inr ⟨se2, List.mem_cons_of_mem _ hse2, hg⟩

theorem personalFold_disj (cfg : Sched.SchedulerConfig)
    (sw : Sched.BlockType → Int) (fetch : Int → List Sched.Interval)
    (day : Int) (stW : Sched.St) (ev : Sched.Event) (b : Sched.Interval)
    (hb : b ∈ fetch day)
    (hP : ev ∈ (Sched.foldEvents
      (fun a iv => Sched.personalLoop cfg sw day (iv.minutes.toNat + 1) a
        (some iv))
      (Sched.sortStable Sched.intervalLT
        ((cfg.personalWindows (Sched.weekday day)).foldl
          (fun acc se =>
            acc ++ Sched.subtractBusy
              ⟨day * 1440 + se.1, day * 1440 + se.2⟩ (fetch day)) []))
      stW).2) :
    Sched.disjIv (Sched.evIv ev) b := by
  obtain ⟨iv, hiv, hsub⟩ := foldEvents_contained
    (fun a iv => Sched.personalLoop cfg sw day (iv.minutes.toNat + 1) a
      (some iv))
    (fun a iv e he =>
      personalLoop_contained cfg sw day (iv.minutes.toNat + 1) a iv _ _
        rfl e he)
    _ _ ev hP
  have hiv2 := (mem_sortStable Sched.intervalLT _ iv).1 hiv
  rcases mem_foldl_append _
    (fun se : Int × Int => Sched.subtractBusy
      ⟨day * 1440 + se.1, day * 1440 + se.2⟩ (fetch day))
    (fun a se => rfl) _ _ iv hiv2 with h | ⟨se, hse, hmem⟩
  · simp at h
  · have hd := subtractBusy_disj _ (fetch day) iv hmem b hb
    exact disjIv_of_subIv hsub hd

theorem planOneDay_busyDisjoint (cfg : Sched.SchedulerConfig)
    (sw : Sched.BlockType → Int) (fetch : Int → List Sched.Interval)
    (day : Int) (st : Sched.St) (ev : Sched.Event)
    (hev : ev ∈ (Sched.planOneDay cfg sw fetch day st).1.blocks)
    (b : Sched.Interval) (hb : b ∈ fetch day) :
    Sched.disjIv (Sched.evIv ev) b := by
  simp only [Sched.planOneDay, List.mem_append] at hev
  rcases hev with hW | hP
  · obtain ⟨iv, hiv, hsub⟩ := foldEvents_contained
      (fun a iv => Sched.workLoop cfg sw day (iv.minutes.toNat + 1) a (some iv))
      (fun a iv e he =>
        workLoop_contained cfg sw day (iv.minutes.toNat + 1) a iv _ _ rfl e he)
      _ _ ev hW
    split at hiv
    · have hiv2 := (mem_sortStable Sched.intervalLT _ iv).1 hiv
      have hd := subtractBusy_disj _ (fetch day) iv hiv2 b hb
      exact disjIv_of_subIv hsub hd
    · simp at hiv
  · split at hP
    · split at hP
      · exact personalFold_disj cfg sw fetch day _ ev b hb hP
      · simp at hP
    · split at hP
      · exact personalFold_disj cfg sw fetch day _ ev b hb hP
      · simp at hP

theorem planDays_busyDisjoint (cfg : Sched.SchedulerConfig)
    (sw : Sched.BlockType → Int) (fetch : Int → List Sched.Interval) :
    ∀ (n : Nat) (day : Int) (st : Sched.St) (i : Nat) (ev : Sched.Event)
      (b : Sched.Interval),
      ev ∈ ((Sched.planDays cfg sw fetch n day st).1.getD i
        ⟨0, [], fun _ => 0⟩).blocks →
      b ∈ fetch (day + (i : Int)) → Sched.disjIv (Sched.evIv ev) b := by
  intro n
  induction n with
  | zero =>
    intro day st i ev b hev hb
    have hnil : (Sched.planDays cfg sw fetch 0 day st).1 = [] := rfl
    rw [hnil] at hev
    have hd : ([] : List Sched.PlanDay).getD i ⟨0, [], fun _ => 0⟩ =
        ⟨0, [], fun _ => 0⟩ := by
      cases i <;> rfl
    rw [hd] at hev
    simp at hev
  | succ n ih =>
    intro day st i ev b hev hb
    simp only [Sched.planDays] at hev
    cases i with
    | zero =>
      rw [List.getD_cons_zero] at hev
      have hb0 : b ∈ fetch day := by
        have he : day + ((0 : Nat) : Int) = day := by simp
        rwa [he] at hb
      exact planOneDay_busyDisjoint cfg sw fetch day st ev hev b hb0
    | succ i =>
      rw [List.getD_cons_succ] at hev
      have hb2 : b ∈ fetch ((day + 1) + (i : Int)) := by
        have he : day + ((i + 1 : Nat) : Int) = (day + 1) + (i : Int) := by
          push_cast
          ring
        rwa [he] at hb
      exact ih (day + 1) (Sched.planOneDay cfg sw fetch day st).2 i ev b hev hb2

/-- C10: no block the scheduler emits overlaps a fixed busy interval fetched
for its day: the free material handed to both placement loops is carved from
core hours (resp. the personal windows) with `subtract_busy`, and every
emitted event lies inside one of the carved free intervals. -/
theorem c10_blocks_avoid_busy (startDate : Int) (numDays : Nat)
    (cfg : Sched.SchedulerConfig) (fetch : Int → List Sched.Interval)
    (grouped : Sched.BlockType → List Sched.Task) (i : Nat)
    (ev : Sched.Event) (b : Sched.Interval)
    (hev : ev ∈ ((Sched.planWeek startDate numDays cfg fetch
      grouped).days.getD i ⟨0, [], fun _ => 0⟩).blocks)
    (hb : b ∈ fetch (startDate + (i : Int))) :
    Sched.disjIv (Sched.evIv ev) b :=
  planDays_busyDisjoint cfg (Sched.scaledWeeklyOf cfg numDays) fetch numDays
    startDate ⟨Sched.computeDemand grouped, fun _ => 0, fun _ => 0⟩ i ev b
    hev hb

/-- Witness for C10 at a concrete one-day plan with a 10:00-11:00 busy
interval: the first emitted block avoids it. -/
theorem c10_blocks_avoid_busy_witness :
    ((Sched.planWeek 0 1 c5Cfg c10Fetch c5Tasks).days.getD 0
        ⟨0, [], fun _ => 0⟩).blocks.getD 0 c10DefEv ∈
      ((Sched.planWeek 0 1 c5Cfg c10Fetch c5Tasks).days.getD 0
        ⟨0, [], fun _ => 0⟩).blocks ∧
    (⟨600, 660⟩ : Sched.Interval) ∈ c10Fetch (0 + ((0 : Nat) : Int)) ∧
    Sched.disjIv (Sched.evIv
      (((Sched.planWeek 0 1 c5Cfg c10Fetch c5Tasks).days.getD 0
        ⟨0, [], fun _ => 0⟩).blocks.getD 0 c10DefEv)) ⟨600, 660⟩ :=
  ⟨by decide, by decide,
   c10_blocks_avoid_busy 0 1 c5Cfg c10Fetch c5Tasks 0 _ _ (by decide)
     (by decide)⟩

/-! ## C8 helpers: reflow of the current block -/

theorem pickLoop_sound (exclude : List String) (cap : Int) :
    ∀ (l : List Reflow.RfTask) (remaining : Int) (tid : String),
      tid ∈ (Reflow.pickLoop exclude cap l remaining).1 →
      exclude.contains tid = false ∧ ∃ t ∈ l, t.id = tid := by
  intro l
  induction l with
  | nil => intro remaining tid h; simp [Reflow.pickLoop] at h
  | cons t rest ih =>
    intro remaining tid h
    simp only [Reflow.pickLoop] at h
    split at h
    · obtain ⟨hc, t2, ht2, hid⟩ := ih _ tid h
      exact ⟨hc, t2, List.mem_cons_of_mem _ ht2, hid⟩
    · rename_i hguard
      push_neg at hguard
      have hc : exclude.contains t.id = false :=
        Bool.eq_false_iff.2 hguard.2
      split at h
      · obtain ⟨hc2, t2, ht2, hid⟩ := ih _ tid h
        exact ⟨hc2, t2, List.mem_cons_of_mem _ ht2, hid⟩
      · rename_i rem hrem
        split at h
        · obtain ⟨hc2, t2, ht2, hid⟩ := ih _ tid h
          exact ⟨hc2, t2, List.mem_cons_of_mem _ ht2, hid⟩
        · split at h
          · split at h
            · obtain ⟨hc2, t2, ht2, hid⟩ := ih _ tid h
              exact ⟨hc2, t2, List.mem_cons_of_mem _ ht2, hid⟩
            · split at h
              · have hid := List.mem_singleton.1 h
                subst hid
                exact ⟨hc, t, List.mem_cons_self _ _, rfl⟩
              · rcases List.mem_cons.1 h with he | he
                · subst he
                  exact ⟨hc, t, List.mem_cons_self _ _, rfl⟩
                · obtain ⟨hc2, t2, ht2, hid⟩ := ih _ tid he
                  exact ⟨hc2, t2, List.mem_cons_of_mem _ ht2, hid⟩
          · split at h
            · obtain ⟨hc2, t2, ht2, hid⟩ := ih _ tid h
              exact ⟨hc2, t2, List.mem_cons_of_mem _ ht2, hid⟩
            · split at h
              · have hid := List.mem_singleton.1 h
                subst hid
                exact ⟨hc, t, List.mem_cons_self _ _, rfl⟩
              · rcases List.mem_cons.1 h with he | he
                · subst he
                  exact ⟨hc, t, List.mem_cons_self _ _, rfl⟩
                · obtain ⟨hc2, t2, ht2, hid⟩ := ih _ tid he
                  exact ⟨hc2, t2, List.mem_cons_of_mem _ ht2, hid⟩

/-- C8: once the current Helios event is found, the reflow does nothing when
less than `min_chunk` minutes remain, when the block type is missing, or
when no candidate tasks outside the event's own ids can be picked; otherwise
(not a dry run) it patches the event to end at `now` and inserts one new
event spanning `[now, end]` with the same bucket, the idempotency marker
`reflow:{bucket}:{now_iso}`, and the picked task ids; and every picked id
avoids the excluded ids and comes from the same bucket's task list. -/
theorem c8_reflow_behavior (grouped : String → List Reflow.RfTask)
    (minChunk perTaskCap : Int) (dryRun : Bool) (now : Int)
    (nowIso : String) (e : Reflow.RfEvent) :
    (e.stop - now < minChunk →
      Reflow.reflowStep grouped minChunk perTaskCap dryRun now nowIso e =
        Reflow.RfAction.noop) ∧
    (¬ e.stop - now < minChunk → Py.strip e.block_type = "" →
      Reflow.reflowStep grouped minChunk perTaskCap dryRun now nowIso e =
        Reflow.RfAction.noop) ∧
    (¬ e.stop - now < minChunk → ¬ Py.strip e.block_type = "" →
      (Reflow.pickNextTasks grouped (Py.strip e.block_type) (e.stop - now)
        ((Py.splitChar ',' e.task_ids_str).filter (fun x => ¬ x = ""))
        (max 0 perTaskCap)).1 = [] →
      Reflow.reflowStep grouped minChunk perTaskCap dryRun now nowIso e =
        Reflow.RfAction.noop) ∧
    (¬ e.stop - now < minChunk → ¬ Py.strip e.block_type = "" →
      ¬ (Reflow.pickNextTasks grouped (Py.strip e.block_type) (e.stop - now)
        ((Py.splitChar ',' e.task_ids_str).filter (fun x => ¬ x = ""))
        (max 0 perTaskCap)).1 = [] →
      dryRun = false →
      Reflow.reflowStep grouped minChunk perTaskCap dryRun now nowIso e =
        Reflow.RfAction.patchAndInsert e.id now
          ⟨Reflow.summaryStr (Py.strip e.block_type)
            (Reflow.pickNextTasks grouped (Py.strip e.block_type)
              (e.stop - now)
              ((Py.splitChar ',' e.task_ids_str).filter (fun x => ¬ x = ""))
              (max 0 perTaskCap)).2 (e.stop - now),
           Reflow.descriptionStr (Py.strip e.block_type)
            (Reflow.pickNextTasks grouped (Py.strip e.block_type)
              (e.stop - now)
              ((Py.splitChar ',' e.task_ids_str).filter (fun x => ¬ x = ""))
              (max 0 perTaskCap)).1
            (Reflow.pickNextTasks grouped (Py.strip e.block_type)
              (e.stop - now)
              ((Py.splitChar ',' e.task_ids_str).filter (fun x => ¬ x = ""))
              (max 0 perTaskCap)).2,
           now, e.stop, Py.strip e.block_type,
           Py.intercalate ","
            (Reflow.pickNextTasks grouped (Py.strip e.block_type)
              (e.stop - now)
              ((Py.splitChar ',' e.task_ids_str).filter (fun x => ¬ x = ""))
              (max 0 perTaskCap)).1,
           "reflow:" ++ Py.strip e.block_type ++ ":" ++ nowIso⟩) ∧
    (∀ tid ∈ (Reflow.pickNextTasks grouped (Py.strip e.block_type)
        (e.stop - now)
        ((Py.splitChar ',' e.task_ids_str).filter (fun x => ¬ x = ""))
        (max 0 perTaskCap)).1,
      ((Py.splitChar ',' e.task_ids_str).filter
        (fun x => ¬ x = "")).contains tid = false ∧
      ∃ t ∈ grouped (Py.strip e.block_type), t.id = tid) := by
  refine ⟨?_, ?_, ?_, ?_, ?_⟩
  · intro h1
    simp only [Reflow.reflowStep]
    rw [if_pos h1]
  · intro h1 h2
    simp only [Reflow.reflowStep]
    rw [if_neg h1, if_pos h2]
  · intro h1 h2 h3
    simp only [Reflow.reflowStep]
    rw [if_neg h1, if_neg h2, if_pos h3]
  · intro h1 h2 h3 h4
    subst h4
    simp only [Reflow.reflowStep]
    rw [if_neg h1, if_neg h2, if_neg h3]
    simp
  · intro tid htid
    unfold Reflow.pickNextTasks at htid
    obtain ⟨hc, t, ht, hid⟩ := pickLoop_sound _ _ _ _ tid htid
    exact ⟨hc, t, (mem_sortStable Reflow.taskKeyLT _ t).1 ht, hid⟩

/-- Witness for C8 at the spec's concrete scenario: 75 minutes remain,
T2 claims its 60-minute cap and T3 the final 15, so the inserted block
carries ids T2 then T3. -/
theorem c8_reflow_behavior_witness :
    ¬ c8Event.stop - (645 : Int) < 15 ∧
    ¬ Py.strip c8Event.block_type = "" ∧
    ¬ (Reflow.pickNextTasks c8Grouped (Py.strip c8Event.block_type)
      (c8Event.stop - 645)
      ((Py.splitChar ',' c8Event.task_ids_str).filter (fun x => ¬ x = ""))
      (max 0 60)).1 = [] ∧
    (Reflow.pickNextTasks c8Grouped (Py.strip c8Event.block_type)
      (c8Event.stop - 645)
      ((Py.splitChar ',' c8Event.task_ids_str).filter (fun x => ¬ x = ""))
      (max 0 60)).1 = ["T2", "T3"] ∧
    Reflow.reflowStep c8Grouped 15 60 false 645 "2026-01-05T10:45:00+00:00"
        c8Event =
      Reflow.RfAction.patchAndInsert c8Event.id 645
        ⟨Reflow.summaryStr (Py.strip c8Event.block_type)
          (Reflow.pickNextTasks c8Grouped (Py.strip c8Event.block_type)
            (c8Event.stop - 645)
            ((Py.splitChar ',' c8Event.task_ids_str).filter
              (fun x => ¬ x = ""))
            (max 0 60)).2 (c8Event.stop - 645),
         Reflow.descriptionStr (Py.strip c8Event.block_type)
          (Reflow.pickNextTasks c8Grouped (Py.strip c8Event.block_type)
            (c8Event.stop - 645)
            ((Py.splitChar ',' c8Event.task_ids_str).filter
              (fun x => ¬ x = ""))
            (max 0 60)).1
          (Reflow.pickNextTasks c8Grouped (Py.strip c8Event.block_type)
            (c8Event.stop - 645)
            ((Py.splitChar ',' c8Event.task_ids_str).filter
              (fun x => ¬ x = ""))
            (max 0 60)).2,
         645, c8Event.stop, Py.strip c8Event.block_type,
         Py.intercalate ","
          (Reflow.pickNextTasks c8Grouped (Py.strip c8Event.block_type)
            (c8Event.stop - 645)
            ((Py.splitChar ',' c8Event.task_ids_str).filter
              (fun x => ¬ x = ""))
            (max 0 60)).1,
         "reflow:" ++ Py.strip c8Event.block_type ++ ":" ++
           "2026-01-05T10:45:00+00:00"⟩ :=
  ⟨by decide, by decide, by decide, by decide,
   (c8_reflow_behavior c8Grouped 15 60 false 645 "2026-01-05T10:45:00+00:00"
     c8Event).2.2.2.1 (by decide) (by decide) (by decide) rfl⟩
